import Mathlib

/-! Framed UART protocol of `PWM_Output_And_UART_Handle/USER/my_callback.c`.

A shallow embedding of the packet parser `u3_packet_parser`, of the encoder
`send_u3_data` and of the receive store `my_msg_rx`, followed by the properties
of the 8-byte frame `AA AF d0 d1 d2 d3 FA FF` that the firmware relies on.

Conventions of the embedding:

* a `uint8_t` is a `Nat` (the values the program handles are below 256; the
  one increment of a `uint8_t` is reduced modulo 256);
* a C array is a `List`, read with `List.getD` and written with `List.set`;
* the `static` variables of `u3_packet_parser` and the global `my_msg_rx` it
  writes are the fields of `ParserState`, passed in and returned explicitly;
* the `int8_t` result of the parser is an `Int`.
-/

namespace U3

/-! ## Constants and types -/

/-- First header byte indicating packet start. -/
def HEAD1 : Nat := 0xAA
/-- Second header byte indicating packet start. -/
def HEAD2 : Nat := 0xAF
/-- First tail byte indicating packet end. -/
def TAIL1 : Nat := 0xFA
/-- Second tail byte indicating packet end. -/
def TAIL2 : Nat := 0xFF

/-- Maximum number of messages to store. -/
def MAX_LENGTH : Nat := 10

/-- States of the parser (the `enum` local to `u3_packet_parser`). -/
inductive uart_parse_state_t where
  | STATE_WAIT_HEAD1
  | STATE_WAIT_HEAD2
  | STATE_RECEIVE_DATA
  | STATE_WAIT_TAIL1
  | STATE_WAIT_TAIL2
  deriving DecidableEq, Repr

open uart_parse_state_t

/-- The persistent data of `u3_packet_parser`: its four `static` locals and the
global array `my_msg_rx` (each element is the `buf[4]` view of the union
`send_msg`). -/
structure ParserState where
  packet_count : Nat
  parse_state : uart_parse_state_t
  data_index : Nat
  packet_buffer : List Nat
  my_msg_rx : List (List Nat)
  deriving DecidableEq, Repr

/-- State at reset: the statics carry their initialisers and the arrays are
zero-filled static storage. -/
def u3_init : ParserState :=
  { packet_count := 0
    parse_state := STATE_WAIT_HEAD1
    data_index := 0
    packet_buffer := List.replicate 8 0
    my_msg_rx := List.replicate MAX_LENGTH (List.replicate 4 0) }

/-- Shape of the arrays: `packet_buffer[8]` and `my_msg_rx[MAX_LENGTH]` with
`buf[4]` in each element. -/
def WellFormed (s : ParserState) : Prop :=
  s.packet_buffer.length = 8 ∧ s.my_msg_rx.length = MAX_LENGTH ∧
    ∀ m ∈ s.my_msg_rx, m.length = 4

instance (s : ParserState) : Decidable (WellFormed s) :=
  inferInstanceAs (Decidable (_ ∧ _ ∧ _))

/-! ## The parser -/

/-- The copy loop `for (i = 0; i < 4; i++) my_msg_rx[packet_count].buf[i] =
packet_buffer[2 + i];` of the `STATE_WAIT_TAIL2` branch. -/
def store_packet (rx : List (List Nat)) (packet_count : Nat) (packet_buffer : List Nat) :
    List (List Nat) :=
  (List.range 4).foldl
    (fun rx i => rx.set packet_count ((rx.getD packet_count []).set i (packet_buffer.getD (2 + i) 0)))
    rx

/-- One call `u3_packet_parser(&rx_byte)` of the source: the new persistent
data and the returned value (1 = packet complete, 0 = packet in progress,
-1 = error).
The `default:` branch of the `switch` has no counterpart, the state type having
only the five enumerators. -/
def u3_packet_parser_call (s : ParserState) (rx_byte : Nat) : ParserState × Int :=
  let received_byte := rx_byte
  match s.parse_state with
  | STATE_WAIT_HEAD1 =>
    if received_byte = HEAD1 then
      ({ s with packet_buffer := s.packet_buffer.set 0 received_byte
                parse_state := STATE_WAIT_HEAD2 }, 0)
    else
      (s, 0)
  | STATE_WAIT_HEAD2 =>
    if received_byte = HEAD2 then
      ({ s with packet_buffer := s.packet_buffer.set 1 received_byte
                data_index := 0
                parse_state := STATE_RECEIVE_DATA }, 0)
    else
      ({ s with parse_state := STATE_WAIT_HEAD1 }, 0)
  | STATE_RECEIVE_DATA =>
    let s1 : ParserState :=
      if s.data_index < 4 then
        { s with packet_buffer := s.packet_buffer.set (2 + s.data_index) received_byte
                 data_index := (s.data_index + 1) % 256 }
      else s
    let s2 : ParserState :=
      if s1.data_index ≥ 4 then { s1 with parse_state := STATE_WAIT_TAIL1 } else s1
    (s2, 0)
  | STATE_WAIT_TAIL1 =>
    if received_byte = TAIL1 then
      ({ s with packet_buffer := s.packet_buffer.set 6 received_byte
                parse_state := STATE_WAIT_TAIL2 }, 0)
    else
      ({ s with parse_state := STATE_WAIT_HEAD1 }, -1)
  | STATE_WAIT_TAIL2 =>
    if received_byte = TAIL2 then
      let s1 : ParserState := { s with packet_buffer := s.packet_buffer.set 7 received_byte }
      let s2 : ParserState :=
        if s1.packet_count < 10 then
          { s1 with my_msg_rx := store_packet s1.my_msg_rx s1.packet_count s1.packet_buffer
                    packet_count := (s1.packet_count + 1) % 10 }
        else s1
      ({ s2 with parse_state := STATE_WAIT_HEAD1 }, 1)
    else
      ({ s with parse_state := STATE_WAIT_HEAD1 }, -1)

/-- Persistent data after the bytes `bs` have been handed to the parser one by
one, as `HAL_UART_RxCpltCallback` does for every received byte. -/
def stateAfter (s : ParserState) : List Nat → ParserState
  | [] => s
  | b :: bs => stateAfter (u3_packet_parser_call s b).1 bs

/-- Values returned by the successive calls of the parser on the bytes `bs`. -/
def returns (s : ParserState) : List Nat → List Int
  | [] => []
  | b :: bs => (u3_packet_parser_call s b).2 :: returns (u3_packet_parser_call s b).1 bs

/-! ## The encoder -/

/-- Outcome of `send_u3_data`: the array `my_msg_tx` after the call and the
arguments `tmp_buf` and `8` handed to `HAL_UART_Transmit`. -/
structure SendResult where
  my_msg_tx : List (List Nat)
  tmp_buf : List Nat
  size : Nat
  deriving DecidableEq, Repr

/-- The call `send_u3_data(huart, buf)`. The `float` argument is given by the
four bytes of its object representation, which is what the assignment
`my_msg_tx[0].data = buf` places in the union. -/
def send_u3_data (my_msg_tx : List (List Nat)) (buf : List Nat) : SendResult :=
  let my_msg_tx := my_msg_tx.set 0 buf
  let tmp_buf : List Nat := List.replicate 8 0
  let tmp_buf := tmp_buf.set 0 HEAD1
  let tmp_buf := tmp_buf.set 1 HEAD2
  let tmp_buf := tmp_buf.set 6 TAIL1
  let tmp_buf := tmp_buf.set 7 TAIL2
  let tmp_buf := (List.range 4).foldl
    (fun t i => t.set (2 + i) ((my_msg_tx.getD 0 []).getD i 0)) tmp_buf
  { my_msg_tx := my_msg_tx, tmp_buf := tmp_buf, size := 8 }

/-! ## Streams of frames -/

/-- The frame `send_u3_data` transmits for the payload `q`; the content of
`my_msg_tx` before the call plays no part in it. -/
def encode (q : List Nat) : List Nat :=
  (send_u3_data (List.replicate MAX_LENGTH (List.replicate 4 0)) q).tmp_buf

/-- The byte stream made of the frames of the payloads `qs`, in order. -/
def frames : List (List Nat) → List Nat
  | [] => []
  | q :: qs => encode q ++ frames qs

/-- The values returned along `n` valid frames: seven times 0 and then 1, for
each frame. -/
def completions : Nat → List Int
  | 0 => []
  | n + 1 => [0, 0, 0, 0, 0, 0, 0, 1] ++ completions n

/-- The store and cursor obtained by writing the payloads `qs` one after the
other at the cursor, which advances modulo 10. -/
def push_all (rx : List (List Nat)) (c : Nat) : List (List Nat) → List (List Nat) × Nat
  | [] => (rx, c)
  | q :: qs => push_all (rx.set c q) ((c + 1) % 10) qs

/-- Thirteen distinct payloads, three more than the store has slots. -/
def sample_payloads : List (List Nat) :=
  (List.range 13).map fun i => [i + 1, 0x10 + i, 0x20 + i, 0x30 + i]

/-! ## Invariant linking the parser state to the bytes consumed -/

/-- What the parser data records about the bytes `pre` consumed so far: the
arrays have their shape, the cursor is a slot of the store, the count of data
bytes is below 4 while data is being received, and the part of a frame
recognised so far (with the data bytes held in `packet_buffer[2..]`) is the end
of `pre`. -/
def Trail (s : ParserState) (pre : List Nat) : Prop :=
  WellFormed s ∧ s.packet_count < 10 ∧
    match s.parse_state with
    | STATE_WAIT_HEAD1 => True
    | STATE_WAIT_HEAD2 => [0xAA] <:+ pre
    | STATE_RECEIVE_DATA =>
      s.data_index < 4 ∧
        (0xAA :: 0xAF :: (s.packet_buffer.drop 2).take s.data_index) <:+ pre
    | STATE_WAIT_TAIL1 => (0xAA :: 0xAF :: (s.packet_buffer.drop 2).take 4) <:+ pre
    | STATE_WAIT_TAIL2 => (0xAA :: 0xAF :: (s.packet_buffer.drop 2).take 4 ++ [0xFA]) <:+ pre

/-! ## Index bounds -/

/-- Bounds on the two indices of the parser: the cursor is a slot of the
store, at most 4 data bytes are counted, fewer than 4 while data is being
received and exactly 4 while a tail byte is awaited. -/
def Bounds (s : ParserState) : Prop :=
  s.packet_count < 10 ∧ s.data_index ≤ 4 ∧
    (s.parse_state = STATE_RECEIVE_DATA → s.data_index < 4) ∧
    (s.parse_state = STATE_WAIT_TAIL1 ∨ s.parse_state = STATE_WAIT_TAIL2 → s.data_index = 4)

instance (s : ParserState) : Decidable (Bounds s) :=
  inferInstanceAs (Decidable (_ ∧ _ ∧ _ ∧ _))

/-! ## Frames with a wrong trailer -/

/-- An 8-byte frame with the valid header `AA AF` and a trailer other than
`FA FF`. -/
def malformed_trailer_frame (f : List Nat) : Prop :=
  f.length = 8 ∧ f.take 2 = [0xAA, 0xAF] ∧ (f.getD 6 0 ≠ 0xFA ∨ f.getD 7 0 ≠ 0xFF)

instance (f : List Nat) : Decidable (malformed_trailer_frame f) :=
  inferInstanceAs (Decidable (_ ∧ _ ∧ _))

/-- The last byte of the frame is not an `AA` that comes after a wrong first
tail byte (such an `AA` would be read as the first header byte of a frame). -/
def no_stray_head1 (f : List Nat) : Prop :=
  f.getD 6 0 = 0xFA ∨ f.getD 7 0 ≠ 0xAA

instance (f : List Nat) : Decidable (no_stray_head1 f) :=
  inferInstanceAs (Decidable (_ ∨ _))

/-- The byte stream made of the byte sequences `fs`, in order. -/
def stream_of : List (List Nat) → List Nat
  | [] => []
  | f :: fs => f ++ stream_of fs

/-! ## The timer callback -/

/-- Maximum value for the PWM counter. The macro is the unparenthesised text
`14400-1`; in its only use, `*ccr > MAX_ARR ? MAX_ARR : *ccr`, the subtraction
binds tighter than `>` and `?:`, so it stands for the number 14399. -/
def MAX_ARR : Nat := 14400 - 1

/-- The body of `limit_ccr(&ccr)`: the value stored back in the `uint16_t`. -/
def limit_ccr (ccr : Nat) : Nat :=
  (if ccr > MAX_ARR then MAX_ARR else ccr) % 65536

/-- The four bytes of the `float` constant `1.2f` (IEEE-754 single precision
`0x3F99999A`) as laid out in the little-endian memory of the target. -/
def float_1_2 : List Nat := [0x9A, 0x99, 0x99, 0x3F]

/-- The globals of the file, the statics of its functions, and the two
outputs of the firmware: the buffers and sizes handed to `HAL_UART_Transmit`,
oldest first, and the compare value last set on channel 1 of timer 1. -/
structure Firmware where
  pwm_ccr : Nat
  my_msg_tx : List (List Nat)
  rx : ParserState
  cnt : Nat
  transmitted : List (List Nat × Nat)
  compare : Nat
  deriving DecidableEq, Repr

/-- Firmware state at reset. -/
def fw_init : Firmware :=
  { pwm_ccr := 0
    my_msg_tx := List.replicate MAX_LENGTH (List.replicate 4 0)
    rx := u3_init
    cnt := 0
    transmitted := []
    compare := 0 }

/-- The call `send_u3_data(&huart3, buf)` within the firmware: `my_msg_tx` is
updated and the frame is handed to the transport. -/
def call_send_u3_data (g : Firmware) (buf : List Nat) : Firmware :=
  { g with my_msg_tx := (send_u3_data g.my_msg_tx buf).my_msg_tx
           transmitted := g.transmitted ++
             [((send_u3_data g.my_msg_tx buf).tmp_buf, (send_u3_data g.my_msg_tx buf).size)] }

/-- The callback `HAL_TIM_PeriodElapsedCallback(htim)`; `is_TIM3` tells whether
`htim->Instance == TIM3`. The test `cnt++ >= 10` compares the value of `cnt`
before the increment. -/
def HAL_TIM_PeriodElapsedCallback (g : Firmware) ( is_TIM3 : Bool) : Firmware :=
  if is_TIM3 then
    let old := g.cnt
    let g1 : Firmware := { g with cnt := (g.cnt + 1) % 256 }
    let g2 : Firmware :=
      if old ≥ 10 then { call_send_u3_data g1 float_1_2 with cnt := 0 } else g1
    let g3 : Firmware := { g2 with pwm_ccr := limit_ccr g2.pwm_ccr }
    { g3 with compare := g3.pwm_ccr }
  else g

/-- The firmware after `n` period-elapsed events of timer 3. -/
def ticks (g : Firmware) : Nat → Firmware
  | 0 => g
  | n + 1 => HAL_TIM_PeriodElapsedCallback (ticks g n) true

/-- Whether the `k`-th period-elapsed event of timer 3 (counted from 1) hands a
frame to the transport. -/
def sends_at (g : Firmware) (k : Nat) : Bool :=
  decide ((ticks g (k - 1)).transmitted.length < (ticks g k).transmitted.length)

/-! ## The parser of the specification -/

/-- Parser states named in the specification. -/
inductive SpecState where
  | WaitHead1
  | WaitHead2
  | ReceiveData
  | WaitTail1
  | WaitTail2
  deriving DecidableEq, Repr

/-- Results of `parse_byte` named in the specification. -/
inductive Outcome where
  | InProgress
  | Complete
  | Error
  deriving DecidableEq, Repr

/-- The value the code returns for each result: 0, 1 and -1. -/
def Outcome.toInt : Outcome → Int
  | Outcome.InProgress => 0
  | Outcome.Complete => 1
  | Outcome.Error => -1

/-- The state of the code that stands for each state of the specification. -/
def spec_state_of : uart_parse_state_t → SpecState
  | STATE_WAIT_HEAD1 => SpecState.WaitHead1
  | STATE_WAIT_HEAD2 => SpecState.WaitHead2
  | STATE_RECEIVE_DATA => SpecState.ReceiveData
  | STATE_WAIT_TAIL1 => SpecState.WaitTail1
  | STATE_WAIT_TAIL2 => SpecState.WaitTail2

/-- Parser and packet store as the specification describes them: the state,
the in-flight payload bytes filled so far (their count is the length), the ring
of 10 payload slots and its write cursor. -/
structure SpecParser where
  state : SpecState
  buffer : List Nat
  store : List (List Nat)
  cursor : Nat
  deriving DecidableEq, Repr

/-- Initial parser of the specification: waiting for the first header byte,
empty in-flight buffer, cursor 0 (the slots hold the same zeros as the static
storage of the code). -/
def spec_init : SpecParser :=
  { state := SpecState.WaitHead1
    buffer := []
    store := List.replicate 10 (List.replicate 4 0)
    cursor := 0 }

/-- Return to `WaitHead1` as the specification words it: the in-flight buffer
is emptied. -/
def spec_reset (m : SpecParser) : SpecParser :=
  { m with state := SpecState.WaitHead1, buffer := [] }

/-- The `push` of the specification: overwrite slot `cursor mod N` and advance
the cursor modulo `N`, with `N = 10`. -/
def spec_push (m : SpecParser) (payload : List Nat) : SpecParser :=
  { m with store := m.store.set (m.cursor % 10) payload, cursor := (m.cursor + 1) % 10 }

/-- The `parse_byte` of the specification, row by row of its transition
table. -/
def spec_parse_byte (m : SpecParser) (b : Nat) : SpecParser × Outcome :=
  match m.state with
  | SpecState.WaitHead1 =>
    if b = 0xAA then ({ m with state := SpecState.WaitHead2 }, Outcome.InProgress)
    else (spec_reset m, Outcome.InProgress)
  | SpecState.WaitHead2 =>
    if b = 0xAF then ({ m with state := SpecState.ReceiveData }, Outcome.InProgress)
    else (spec_reset m, Outcome.InProgress)
  | SpecState.ReceiveData =>
    if (m.buffer ++ [b]).length ≥ 4 then
      ({ m with buffer := m.buffer ++ [b], state := SpecState.WaitTail1 }, Outcome.InProgress)
    else ({ m with buffer := m.buffer ++ [b] }, Outcome.InProgress)
  | SpecState.WaitTail1 =>
    if b = 0xFA then ({ m with state := SpecState.WaitTail2 }, Outcome.InProgress)
    else (spec_reset m, Outcome.Error)
  | SpecState.WaitTail2 =>
    if b = 0xFF then (spec_reset (spec_push m m.buffer), Outcome.Complete)
    else (spec_reset m, Outcome.Error)

/-- The parser of the specification after the bytes `bs`. -/
def spec_stateAfter (m : SpecParser) : List Nat → SpecParser
  | [] => m
  | b :: bs => spec_stateAfter (spec_parse_byte m b).1 bs

/-- The results of the parser of the specification along the bytes `bs`. -/
def spec_returns (m : SpecParser) : List Nat → List Outcome
  | [] => []
  | b :: bs => (spec_parse_byte m b).2 :: spec_returns (spec_parse_byte m b).1 bs

/-- The correspondence between the data of the code and the parser of the
specification: same state, store and cursor, and the in-flight buffer of the
specification is the part of `packet_buffer[2..5]` filled since the header
(nothing while a header byte is awaited, whatever `packet_buffer` and
`data_index` still hold). -/
def Sim (s : ParserState) (m : SpecParser) : Prop :=
  m.state = spec_state_of s.parse_state ∧ m.store = s.my_msg_rx ∧ m.cursor = s.packet_count ∧
    match s.parse_state with
    | STATE_WAIT_HEAD1 => m.buffer = []
    | STATE_WAIT_HEAD2 => m.buffer = []
    | STATE_RECEIVE_DATA => m.buffer = (s.packet_buffer.drop 2).take s.data_index
    | STATE_WAIT_TAIL1 => m.buffer = (s.packet_buffer.drop 2).take 4
    | STATE_WAIT_TAIL2 => m.buffer = (s.packet_buffer.drop 2).take 4

/-! ## Noise and payloads that hide a header -/

/-- A piece of noise that a header search gets over: a stray byte other than
`AA`; a false start, `AA` followed by a byte other than `AF`; or an aborted
frame, `AA AF` and four bytes followed either by a byte other than `FA`, or by
`FA` and a byte other than `FF`. -/
def noise_segment (g : List Nat) : Prop :=
  (g.length = 1 ∧ g.getD 0 0 ≠ 0xAA) ∨
  (g.length = 2 ∧ g.getD 0 0 = 0xAA ∧ g.getD 1 0 ≠ 0xAF) ∨
  (g.length = 7 ∧ g.take 2 = [0xAA, 0xAF] ∧ g.getD 6 0 ≠ 0xFA) ∨
  (g.length = 8 ∧ g.take 2 = [0xAA, 0xAF] ∧ g.getD 6 0 = 0xFA ∧ g.getD 7 0 ≠ 0xFF)

instance (g : List Nat) : Decidable (noise_segment g) :=
  inferInstanceAs (Decidable (_ ∨ _ ∨ _ ∨ _))

/-- The payload `p0 p1 p2 p3` shows the header `AA AF` to a search that starts
at its first byte and pairs every `AA` it meets with the byte after it: the
pair is at offsets 0-1; or at offsets 1-2, `p0` not being `AA`; or at offsets
2-3, `p1` not being an `AA` that starts a pair (`p0` is `AA` or `p1` is not). -/
def header_in_payload (p0 p1 p2 p3 : Nat) : Prop :=
  (p0 = 0xAA ∧ p1 = 0xAF) ∨ (p0 ≠ 0xAA ∧ p1 = 0xAA ∧ p2 = 0xAF) ∨
  ((p0 = 0xAA ∨ p1 ≠ 0xAA) ∧ p2 = 0xAA ∧ p3 = 0xAF)

instance (p0 p1 p2 p3 : Nat) : Decidable (header_in_payload p0 p1 p2 p3) :=
  inferInstanceAs (Decidable (_ ∨ _ ∨ _))

/-! ## Auxiliary facts about the arrays -/

theorem range_four : List.range 4 = [0, 1, 2, 3] := by decide

theorem length_four {α : Type} (l : List α) (h : l.length = 4) :
    ∃ a b c d, l = [a, b, c, d] := by
  rcases l with _ | ⟨a, _ | ⟨b, _ | ⟨c, _ | ⟨d, _ | ⟨e, l⟩⟩⟩⟩⟩ <;> simp at h
  exact ⟨a, b, c, d, rfl⟩

theorem getD_set_self {α : Type} (l : List α) (i : Nat) (x d : α) (h : i < l.length) :
    (l.set i x).getD i d = x := by
  simp [List.getD_eq_getElem?_getD, h]

theorem getD_set_other {α : Type} (l : List α) (i j : Nat) (x d : α) (h : i ≠ j) :
    (l.set i x).getD j d = l.getD j d := by
  simp [List.getD_eq_getElem?_getD, List.getElem?_set_ne h]

/-- The copy loop overwrites element `c` of the store with bytes 2..5 of the
packet buffer. -/
theorem store_packet_eq (rx : List (List Nat)) (c : Nat) (pb : List Nat)
    (hc : c < rx.length) (hslot : (rx.getD c []).length = 4) :
    store_packet rx c pb = rx.set c [pb.getD 2 0, pb.getD 3 0, pb.getD 4 0, pb.getD 5 0] := by
  obtain ⟨x0, x1, x2, x3, hx⟩ := length_four _ hslot
  have hx' : rx[c] = [x0, x1, x2, x3] := by
    simpa [List.getD_eq_getElem?_getD, hc] using hx
  simp [store_packet, range_four, hc, hx', List.set_set]

/-! ## One call, state by state -/

theorem step_wait_head1 (c di : Nat) (pb : List Nat) (rx : List (List Nat)) (b : Nat) :
    u3_packet_parser_call ⟨c, STATE_WAIT_HEAD1, di, pb, rx⟩ b =
      if b = 0xAA then (⟨c, STATE_WAIT_HEAD2, di, pb.set 0 b, rx⟩, 0)
      else (⟨c, STATE_WAIT_HEAD1, di, pb, rx⟩, 0) := by
  simp only [u3_packet_parser_call, HEAD1]

theorem step_wait_head2 (c di : Nat) (pb : List Nat) (rx : List (List Nat)) (b : Nat) :
    u3_packet_parser_call ⟨c, STATE_WAIT_HEAD2, di, pb, rx⟩ b =
      if b = 0xAF then (⟨c, STATE_RECEIVE_DATA, 0, pb.set 1 b, rx⟩, 0)
      else (⟨c, STATE_WAIT_HEAD1, di, pb, rx⟩, 0) := by
  simp only [u3_packet_parser_call, HEAD2]

theorem step_receive_data (c di : Nat) (pb : List Nat) (rx : List (List Nat)) (b : Nat)
    (h : di < 4) :
    u3_packet_parser_call ⟨c, STATE_RECEIVE_DATA, di, pb, rx⟩ b =
      (⟨c, if di = 3 then STATE_WAIT_TAIL1 else STATE_RECEIVE_DATA, di + 1,
        pb.set (2 + di) b, rx⟩, 0) := by
  have h1 : (di + 1) % 256 = di + 1 := by omega
  by_cases h3 : di = 3
  · subst h3; simp [u3_packet_parser_call]
  · have h4 : ¬ (4 ≤ di + 1) := by omega
    simp [u3_packet_parser_call, h, h1, h3, h4]

theorem step_wait_tail1 (c di : Nat) (pb : List Nat) (rx : List (List Nat)) (b : Nat) :
    u3_packet_parser_call ⟨c, STATE_WAIT_TAIL1, di, pb, rx⟩ b =
      if b = 0xFA then (⟨c, STATE_WAIT_TAIL2, di, pb.set 6 b, rx⟩, 0)
      else (⟨c, STATE_WAIT_HEAD1, di, pb, rx⟩, -1) := by
  simp only [u3_packet_parser_call, TAIL1]

theorem step_wait_tail2 (c di : Nat) (pb : List Nat) (rx : List (List Nat)) (b : Nat) :
    u3_packet_parser_call ⟨c, STATE_WAIT_TAIL2, di, pb, rx⟩ b =
      if b = 0xFF then
        (if c < 10 then
          (⟨(c + 1) % 10, STATE_WAIT_HEAD1, di, pb.set 7 b, store_packet rx c (pb.set 7 b)⟩, 1)
         else (⟨c, STATE_WAIT_HEAD1, di, pb.set 7 b, rx⟩, 1))
      else (⟨c, STATE_WAIT_HEAD1, di, pb, rx⟩, -1) := by
  by_cases hb : b = 0xFF <;> by_cases h : c < 10 <;> simp [u3_packet_parser_call, TAIL2, h, hb]

theorem stateAfter_append (s : ParserState) (xs ys : List Nat) :
    stateAfter s (xs ++ ys) = stateAfter (stateAfter s xs) ys := by
  induction xs generalizing s with
  | nil => rfl
  | cons x xs ih => simp [stateAfter, ih]

theorem returns_append (s : ParserState) (xs ys : List Nat) :
    returns s (xs ++ ys) = returns s xs ++ returns (stateAfter s xs) ys := by
  induction xs generalizing s with
  | nil => rfl
  | cons x xs ih => simp [stateAfter, returns, ih]

/-- What one valid frame does to a parser that waits for a header. -/
theorem frame_run (c di : Nat) (pb : List Nat) (rx : List (List Nat)) (p0 p1 p2 p3 : Nat) :
    returns ⟨c, STATE_WAIT_HEAD1, di, pb, rx⟩ [0xAA, 0xAF, p0, p1, p2, p3, 0xFA, 0xFF] =
      [0, 0, 0, 0, 0, 0, 0, 1] ∧
    (c < 10 →
      stateAfter ⟨c, STATE_WAIT_HEAD1, di, pb, rx⟩ [0xAA, 0xAF, p0, p1, p2, p3, 0xFA, 0xFF] =
        ⟨(c + 1) % 10, STATE_WAIT_HEAD1, 4,
          (((((((pb.set 0 0xAA).set 1 0xAF).set 2 p0).set 3 p1).set 4 p2).set 5 p3).set 6
            0xFA).set 7 0xFF,
          store_packet rx c ((((((((pb.set 0 0xAA).set 1 0xAF).set 2 p0).set 3 p1).set 4 p2).set 5
            p3).set 6 0xFA).set 7 0xFF)⟩) := by
  constructor
  · by_cases hc : c < 10 <;>
      simp [returns, step_wait_head1, step_wait_head2, step_receive_data, step_wait_tail1,
        step_wait_tail2, hc]
  · intro hc
    simp [stateAfter, step_wait_head1, step_wait_head2, step_receive_data, step_wait_tail1,
      step_wait_tail2, hc]

theorem length_eight {α : Type} (l : List α) (h : l.length = 8) :
    ∃ w0 w1 w2 w3 w4 w5 w6 w7, l = [w0, w1, w2, w3, w4, w5, w6, w7] := by
  rcases l with _ | ⟨w0, _ | ⟨w1, _ | ⟨w2, _ | ⟨w3, _ | ⟨w4, _ | ⟨w5, _ | ⟨w6, _ | ⟨w7, _ |
    ⟨a8, l⟩⟩⟩⟩⟩⟩⟩⟩⟩ <;> simp at h
  exact ⟨w0, w1, w2, w3, w4, w5, w6, w7, rfl⟩

theorem slot_length (s : ParserState) (hwf : WellFormed s) (j : Nat) (hj : j < 10) :
    (s.my_msg_rx.getD j []).length = 4 := by
  obtain ⟨_, hlen, hall⟩ := hwf
  have hj' : j < s.my_msg_rx.length := by rw [hlen]; exact hj
  apply hall
  simp [List.getD_eq_getElem?_getD, hj']

/-- A valid frame, received by a well-formed parser that waits for a header
with its cursor on a slot, is stored in that slot and advances the cursor. -/
theorem frame_stored (s : ParserState) (p0 p1 p2 p3 : Nat)
    (hs : s.parse_state = STATE_WAIT_HEAD1) (hc : s.packet_count < 10) (hwf : WellFormed s) :
    stateAfter s [0xAA, 0xAF, p0, p1, p2, p3, 0xFA, 0xFF] =
      ⟨(s.packet_count + 1) % 10, STATE_WAIT_HEAD1, 4, [0xAA, 0xAF, p0, p1, p2, p3, 0xFA, 0xFF],
        s.my_msg_rx.set s.packet_count [p0, p1, p2, p3]⟩ := by
  have hslot := slot_length s hwf _ hc
  obtain ⟨c, st, di, pb, rx⟩ := s
  obtain ⟨hpb, hlen, -⟩ := hwf
  simp only at hs hc hpb hlen hslot
  subst hs
  obtain ⟨w0, w1, w2, w3, w4, w5, w6, w7, rfl⟩ := length_eight pb hpb
  have hc' : c < rx.length := by rw [hlen]; exact hc
  rw [(frame_run c di _ rx p0 p1 p2 p3).2 hc, store_packet_eq rx c _ hc' hslot]
  simp

theorem wellFormed_set (s : ParserState) (hwf : WellFormed s) (c' : Nat)
    (st : uart_parse_state_t) (di : Nat) (pb : List Nat) (hpb : pb.length = 8) (j : Nat)
    (m : List Nat) (hm : m.length = 4) :
    WellFormed ⟨c', st, di, pb, s.my_msg_rx.set j m⟩ := by
  obtain ⟨_, hlen, hall⟩ := hwf
  refine ⟨hpb, by simpa using hlen, ?_⟩
  intro x hx
  rcases List.mem_or_eq_of_mem_set hx with h | h
  · exact hall x h
  · rw [h]; exact hm

/-- The frame built by `send_u3_data` (the transmit array has at least its
element 0). -/
theorem send_u3_data_frame (tx : List (List Nat)) (p0 p1 p2 p3 : Nat) (htx : 0 < tx.length) :
    (send_u3_data tx [p0, p1, p2, p3]).tmp_buf = [0xAA, 0xAF, p0, p1, p2, p3, 0xFA, 0xFF] := by
  simp [send_u3_data, range_four, getD_set_self, htx, HEAD1, HEAD2, TAIL1, TAIL2,
    List.replicate]

/-! ## The invariant holds along every stream -/

theorem suffix_snoc {l pre : List Nat} (h : l <:+ pre) (b : Nat) : l ++ [b] <:+ pre ++ [b] := by
  obtain ⟨t, rfl⟩ := h
  exact ⟨t, by simp⟩

theorem trail_init : Trail u3_init [] := by
  refine ⟨by decide, by decide, ?_⟩
  simp [u3_init]

theorem trail_step (s : ParserState) (pre : List Nat) (b : Nat) (h : Trail s pre) :
    Trail (u3_packet_parser_call s b).1 (pre ++ [b]) := by
  obtain ⟨hwf, hc, ht⟩ := h
  have hslot := slot_length s hwf _ hc
  obtain ⟨c, st, di, pb, rx⟩ := s
  obtain ⟨hpb, hlen, hall⟩ := hwf
  simp only at hc hpb hlen hall ht hslot
  obtain ⟨w0, w1, w2, w3, w4, w5, w6, w7, rfl⟩ := length_eight pb hpb
  have hc' : c < rx.length := by rw [hlen]; exact hc
  cases st with
  | STATE_WAIT_HEAD1 =>
    rw [step_wait_head1]
    by_cases hb : b = 0xAA
    · subst hb
      exact ⟨⟨rfl, hlen, hall⟩, hc, by simp⟩
    · simp only [hb, if_false]
      exact ⟨⟨rfl, hlen, hall⟩, hc, trivial⟩
  | STATE_WAIT_HEAD2 =>
    rw [step_wait_head2]
    by_cases hb : b = 0xAF
    · subst hb
      refine ⟨⟨rfl, hlen, hall⟩, hc, ?_⟩
      simpa using suffix_snoc ht 0xAF
    · simp only [hb, if_false]
      exact ⟨⟨rfl, hlen, hall⟩, hc, trivial⟩
  | STATE_RECEIVE_DATA =>
    obtain ⟨hdi, hsuf⟩ := ht
    rw [step_receive_data _ _ _ _ _ hdi]
    have hcases : di = 0 ∨ di = 1 ∨ di = 2 ∨ di = 3 := by omega
    rcases hcases with rfl | rfl | rfl | rfl
    all_goals
      refine ⟨⟨rfl, hlen, hall⟩, hc, ?_⟩
      simpa using suffix_snoc hsuf b
  | STATE_WAIT_TAIL1 =>
    rw [step_wait_tail1]
    by_cases hb : b = 0xFA
    · subst hb
      exact ⟨⟨rfl, hlen, hall⟩, hc, by simpa using suffix_snoc ht 0xFA⟩
    · simp only [hb, if_false]
      exact ⟨⟨rfl, hlen, hall⟩, hc, trivial⟩
  | STATE_WAIT_TAIL2 =>
    rw [step_wait_tail2]
    by_cases hb : b = 0xFF
    · subst hb
      simp only [hc, if_true]
      rw [store_packet_eq rx c _ hc' hslot]
      refine ⟨wellFormed_set ⟨c, STATE_WAIT_TAIL2, di, [w0, w1, w2, w3, w4, w5, w6, w7], rx⟩
        ⟨rfl, hlen, hall⟩ _ _ _ _ ?_ _ _ ?_, Nat.mod_lt _ (by decide), trivial⟩
      · simp
      · simp
    · simp only [hb, if_false]
      exact ⟨⟨rfl, hlen, hall⟩, hc, trivial⟩

theorem trail_stateAfter (s : ParserState) (pre bs : List Nat) (h : Trail s pre) :
    Trail (stateAfter s bs) (pre ++ bs) := by
  induction bs generalizing s pre with
  | nil => simpa [stateAfter] using h
  | cons b bs ih =>
    have := ih _ _ (trail_step s pre b h)
    simpa [stateAfter] using this

theorem trail_reachable (bs : List Nat) : Trail (stateAfter u3_init bs) bs := by
  simpa using trail_stateAfter u3_init [] bs trail_init

/-- The parser returns 1 only on the byte `FF` received while waiting for the
second tail byte. -/
theorem complete_only_in_tail2 (s : ParserState) (b : Nat)
    (h : (u3_packet_parser_call s b).2 = 1) :
    s.parse_state = STATE_WAIT_TAIL2 ∧ b = 0xFF := by
  obtain ⟨c, st, di, pb, rx⟩ := s
  cases st with
  | STATE_WAIT_HEAD1 => rw [step_wait_head1] at h; split at h <;> simp at h
  | STATE_WAIT_HEAD2 => rw [step_wait_head2] at h; split at h <;> simp at h
  | STATE_RECEIVE_DATA => simp [u3_packet_parser_call] at h
  | STATE_WAIT_TAIL1 => rw [step_wait_tail1] at h; split at h <;> simp at h
  | STATE_WAIT_TAIL2 =>
    rw [step_wait_tail2] at h
    by_cases hb : b = 0xFF
    · exact ⟨rfl, hb⟩
    · simp [hb] at h

/-- A call that returns 1 has just consumed the last byte of a frame
`AA AF d0 d1 d2 d3 FA FF`, and has written `d0 d1 d2 d3` at the cursor. -/
theorem complete_ends_frame (s : ParserState) (pre : List Nat) (b : Nat) (ht : Trail s pre)
    (h : (u3_packet_parser_call s b).2 = 1) :
    ∃ d0 d1 d2 d3, [0xAA, 0xAF, d0, d1, d2, d3, 0xFA, 0xFF] <:+ pre ++ [b] ∧
      (u3_packet_parser_call s b).1.my_msg_rx.getD s.packet_count [] = [d0, d1, d2, d3] := by
  obtain ⟨hst, hb⟩ := complete_only_in_tail2 s b h
  obtain ⟨hwf, hc, ht⟩ := ht
  have hslot := slot_length s hwf _ hc
  obtain ⟨c, st, di, pb, rx⟩ := s
  obtain ⟨hpb, hlen, hall⟩ := hwf
  simp only at hc hpb hlen hall ht hslot hst
  subst hst hb
  obtain ⟨w0, w1, w2, w3, w4, w5, w6, w7, rfl⟩ := length_eight pb hpb
  have hc' : c < rx.length := by rw [hlen]; exact hc
  refine ⟨w2, w3, w4, w5, ?_, ?_⟩
  · simpa using suffix_snoc ht 0xFF
  · rw [step_wait_tail2]
    simp only [hc, if_true]
    rw [store_packet_eq rx c _ hc' hslot]
    show (rx.set c _).getD c [] = _
    rw [getD_set_self _ _ _ _ hc']
    simp

theorem returns_getElem (s : ParserState) (bs : List Nat) (k : Nat) (r : Int)
    (h : (returns s bs)[k]? = some r) :
    ∃ b, bs[k]? = some b ∧ (u3_packet_parser_call (stateAfter s (bs.take k)) b).2 = r ∧
      stateAfter s (bs.take (k + 1)) = (u3_packet_parser_call (stateAfter s (bs.take k)) b).1 := by
  induction bs generalizing s k with
  | nil => simp [returns] at h
  | cons x xs ih =>
    cases k with
    | zero =>
      simp [returns] at h
      exact ⟨x, by simp, by simpa [stateAfter] using h, by simp [stateAfter]⟩
    | succ k =>
      simp only [returns, List.getElem?_cons_succ] at h
      obtain ⟨b, hb, hr, hs⟩ := ih _ k h
      exact ⟨b, by simpa using hb, by simpa [stateAfter] using hr, by simpa [stateAfter] using hs⟩

/-- C3: along every byte stream fed from the initial state, the `k`-th call
returns 1 only if `k ≥ 8` and bytes `k-7 .. k` are `AA AF d0 d1 d2 d3 FA FF`
for some `d0 .. d3`; the slot written by that call (the one at the cursor held
before the call) then holds exactly `d0 d1 d2 d3`. -/
theorem complete_sound (bs : List Nat) (k : Nat) (hk : 1 ≤ k)
    (h : (returns u3_init bs)[k - 1]? = some 1) :
    8 ≤ k ∧ ∃ d0 d1 d2 d3,
      (bs.take k).drop (k - 8) = [0xAA, 0xAF, d0, d1, d2, d3, 0xFA, 0xFF] ∧
      (stateAfter u3_init (bs.take k)).my_msg_rx.getD
        (stateAfter u3_init (bs.take (k - 1))).packet_count [] = [d0, d1, d2, d3] := by
  obtain ⟨j, rfl⟩ : ∃ j, k = j + 1 := ⟨k - 1, by omega⟩
  simp only [Nat.add_sub_cancel] at h ⊢
  obtain ⟨b, hb, hr, hs⟩ := returns_getElem u3_init bs j 1 h
  obtain ⟨d0, d1, d2, d3, hsuf, hslot⟩ :=
    complete_ends_frame _ _ b (trail_reachable (bs.take j)) hr
  have htake : bs.take (j + 1) = bs.take j ++ [b] := by
    rw [List.take_succ, hb]; rfl
  have hj : j < bs.length := by
    by_contra hcon
    have : bs[j]? = none := List.getElem?_eq_none (by omega)
    rw [this] at hb
    exact absurd hb (by simp)
  have hlen : (bs.take (j + 1)).length = j + 1 := by
    rw [List.length_take]; omega
  rw [← htake] at hsuf
  have hle := hsuf.length_le
  rw [hlen] at hle
  simp only [List.length_cons, List.length_nil] at hle
  refine ⟨hle, d0, d1, d2, d3, ?_, ?_⟩
  · have := List.suffix_iff_eq_drop.mp hsuf
    rw [hlen] at this
    simpa using this.symm
  · rw [hs]; exact hslot

/-- Witness of C3: in the stream `00 AA AF 01 02 03 04 FA FF` the 9th call
returns 1. -/
theorem complete_sound_witness :
    8 ≤ 9 ∧ ∃ d0 d1 d2 d3,
      ([0, 0xAA, 0xAF, 1, 2, 3, 4, 0xFA, 0xFF].take 9).drop (9 - 8) =
        [0xAA, 0xAF, d0, d1, d2, d3, 0xFA, 0xFF] ∧
      (stateAfter u3_init ([0, 0xAA, 0xAF, 1, 2, 3, 4, 0xFA, 0xFF].take 9)).my_msg_rx.getD
        (stateAfter u3_init ([0, 0xAA, 0xAF, 1, 2, 3, 4, 0xFA, 0xFF].take (9 - 1))).packet_count []
        = [d0, d1, d2, d3] :=
  complete_sound [0, 0xAA, 0xAF, 1, 2, 3, 4, 0xFA, 0xFF] 9 (by decide) (by decide)

/-! ## Round trip through encoder and parser -/

/-- C1: for every 4-byte payload (header and trailer values included) and every
well-formed parser waiting for the first header byte with its cursor `c < 10`,
the 8 bytes built by `send_u3_data` make the call on the 8th byte return 1, and
afterwards `my_msg_rx[c]` holds exactly the 4 payload bytes. -/
theorem round_trip_stores_payload (s : ParserState) (tx : List (List Nat)) (p0 p1 p2 p3 : Nat)
    (hs : s.parse_state = STATE_WAIT_HEAD1) (hc : s.packet_count < 10) (hwf : WellFormed s)
    (htx : tx.length = MAX_LENGTH) :
    (send_u3_data tx [p0, p1, p2, p3]).tmp_buf.length = 8 ∧
    (returns s (send_u3_data tx [p0, p1, p2, p3]).tmp_buf)[7]? = some 1 ∧
    (stateAfter s (send_u3_data tx [p0, p1, p2, p3]).tmp_buf).my_msg_rx.getD s.packet_count [] =
      [p0, p1, p2, p3] := by
  have htx' : 0 < tx.length := by rw [htx]; decide
  have hc' : s.packet_count < s.my_msg_rx.length := by rw [hwf.2.1]; exact hc
  rw [send_u3_data_frame tx p0 p1 p2 p3 htx', frame_stored s p0 p1 p2 p3 hs hc hwf]
  obtain ⟨c, st, di, pb, rx⟩ := s
  simp only at hs
  subst hs
  rw [(frame_run c di pb rx p0 p1 p2 p3).1]
  exact ⟨rfl, rfl, getD_set_self _ _ _ _ hc'⟩

/-- Witness of C1: the payload `AA FF AA FA` received with the cursor on the
last slot. -/
theorem round_trip_stores_payload_witness :
    (send_u3_data (List.replicate 10 [0, 0, 0, 0]) [0xAA, 0xFF, 0xAA, 0xFA]).tmp_buf.length = 8 ∧
    (returns { u3_init with packet_count := 9 }
      (send_u3_data (List.replicate 10 [0, 0, 0, 0]) [0xAA, 0xFF, 0xAA, 0xFA]).tmp_buf)[7]?
        = some 1 ∧
    (stateAfter { u3_init with packet_count := 9 }
      (send_u3_data (List.replicate 10 [0, 0, 0, 0]) [0xAA, 0xFF, 0xAA, 0xFA]).tmp_buf
      ).my_msg_rx.getD 9 [] = [0xAA, 0xFF, 0xAA, 0xFA] :=
  round_trip_stores_payload { u3_init with packet_count := 9 } (List.replicate 10 [0, 0, 0, 0])
    0xAA 0xFF 0xAA 0xFA rfl (by decide) (by decide) (by decide)

/-- C2, as stated, fails: the eight calls on the frame of the payload
`00 00 00 00` return 0 seven times before the 1, so the returned sequence is
not "six times 0, then 1". -/
theorem returns_not_six_in_progress :
    returns u3_init (send_u3_data (List.replicate 10 [0, 0, 0, 0]) [0, 0, 0, 0]).tmp_buf
      ≠ [0, 0, 0, 0, 0, 0, 1] ∧
    (returns u3_init (send_u3_data (List.replicate 10 [0, 0, 0, 0]) [0, 0, 0, 0]).tmp_buf).count 0
      = 7 := by
  decide

/-- C2, amended: for every 4-byte payload, the 8 bytes of the encoded frame fed
in order to a parser waiting for the first header byte return 0 (in progress)
exactly seven times, followed by 1 (complete). -/
theorem returns_seven_in_progress_then_complete (s : ParserState) (tx : List (List Nat))
    (p0 p1 p2 p3 : Nat) (hs : s.parse_state = STATE_WAIT_HEAD1) (htx : tx.length = MAX_LENGTH) :
    returns s (send_u3_data tx [p0, p1, p2, p3]).tmp_buf = [0, 0, 0, 0, 0, 0, 0, 1] := by
  have htx' : 0 < tx.length := by rw [htx]; decide
  rw [send_u3_data_frame tx p0 p1 p2 p3 htx']
  obtain ⟨c, st, di, pb, rx⟩ := s
  simp only at hs
  subst hs
  exact (frame_run c di pb rx p0 p1 p2 p3).1

/-- Witness of the amended C2 at the initial parser and the payload
`01 02 03 04`. -/
theorem returns_seven_in_progress_then_complete_witness :
    returns u3_init (send_u3_data (List.replicate 10 [0, 0, 0, 0]) [1, 2, 3, 4]).tmp_buf
      = [0, 0, 0, 0, 0, 0, 0, 1] :=
  returns_seven_in_progress_then_complete u3_init (List.replicate 10 [0, 0, 0, 0]) 1 2 3 4 rfl
    (by decide)

/-! ## Single calls: transitions, returned value, effect on the store -/

/-- C4: one call follows the transition table. Waiting for the first header
byte: `AA` leads to waiting for the second with 0, any other byte stays with 0.
Waiting for the second header byte: `AF` leads to receiving data with 0, any
other byte back to the first header byte with 0. Receiving data (fewer than 4
bytes held, as in every reachable state): the byte is stored at
`packet_buffer[2 + data_index]`, the count grows by one, the next state is
waiting for the first tail byte after the 4th data byte and receiving data
before, and 0 is returned. Waiting for the first tail byte: `FA` leads to the
second with 0, any other byte to the first header byte with -1. Waiting for the
second tail byte: `FF` leads to the first header byte with 1, any other byte to
the first header byte with -1. -/
theorem transition_table (s : ParserState) (b : Nat)
    (hdi : s.parse_state = STATE_RECEIVE_DATA → s.data_index < 4)
    (hpb : s.packet_buffer.length = 8) :
    (s.parse_state = STATE_WAIT_HEAD1 → b = 0xAA →
      (u3_packet_parser_call s b).1.parse_state = STATE_WAIT_HEAD2 ∧
      (u3_packet_parser_call s b).2 = 0) ∧
    (s.parse_state = STATE_WAIT_HEAD1 → b ≠ 0xAA →
      (u3_packet_parser_call s b).1.parse_state = STATE_WAIT_HEAD1 ∧
      (u3_packet_parser_call s b).2 = 0) ∧
    (s.parse_state = STATE_WAIT_HEAD2 → b = 0xAF →
      (u3_packet_parser_call s b).1.parse_state = STATE_RECEIVE_DATA ∧
      (u3_packet_parser_call s b).2 = 0) ∧
    (s.parse_state = STATE_WAIT_HEAD2 → b ≠ 0xAF →
      (u3_packet_parser_call s b).1.parse_state = STATE_WAIT_HEAD1 ∧
      (u3_packet_parser_call s b).2 = 0) ∧
    (s.parse_state = STATE_RECEIVE_DATA →
      (u3_packet_parser_call s b).1.packet_buffer.getD (2 + s.data_index) 0 = b ∧
      (u3_packet_parser_call s b).1.data_index = s.data_index + 1 ∧
      (u3_packet_parser_call s b).1.parse_state =
        (if s.data_index + 1 = 4 then STATE_WAIT_TAIL1 else STATE_RECEIVE_DATA) ∧
      (u3_packet_parser_call s b).2 = 0) ∧
    (s.parse_state = STATE_WAIT_TAIL1 → b = 0xFA →
      (u3_packet_parser_call s b).1.parse_state = STATE_WAIT_TAIL2 ∧
      (u3_packet_parser_call s b).2 = 0) ∧
    (s.parse_state = STATE_WAIT_TAIL1 → b ≠ 0xFA →
      (u3_packet_parser_call s b).1.parse_state = STATE_WAIT_HEAD1 ∧
      (u3_packet_parser_call s b).2 = -1) ∧
    (s.parse_state = STATE_WAIT_TAIL2 → b = 0xFF →
      (u3_packet_parser_call s b).1.parse_state = STATE_WAIT_HEAD1 ∧
      (u3_packet_parser_call s b).2 = 1) ∧
    (s.parse_state = STATE_WAIT_TAIL2 → b ≠ 0xFF →
      (u3_packet_parser_call s b).1.parse_state = STATE_WAIT_HEAD1 ∧
      (u3_packet_parser_call s b).2 = -1) := by
  obtain ⟨c, st, di, pb, rx⟩ := s
  simp only at hdi hpb
  refine ⟨?_, ?_, ?_, ?_, ?_, ?_, ?_, ?_, ?_⟩
  · rintro rfl hb; simp [step_wait_head1, hb]
  · rintro rfl hb; simp [step_wait_head1, hb]
  · rintro rfl hb; simp [step_wait_head2, hb]
  · rintro rfl hb; simp [step_wait_head2, hb]
  · rintro rfl
    have h4 := hdi rfl
    rw [step_receive_data _ _ _ _ _ h4]
    have hlt : 2 + di < pb.length := by omega
    refine ⟨getD_set_self _ _ _ _ hlt, rfl, ?_, rfl⟩
    by_cases h3 : di = 3
    · subst h3; rfl
    · have : ¬ (di + 1 = 4) := by omega
      simp [h3, this]
  · rintro rfl hb; simp [step_wait_tail1, hb]
  · rintro rfl hb; simp [step_wait_tail1, hb]
  · rintro rfl hb
    rw [step_wait_tail2]
    by_cases hc : c < 10 <;> simp [hb, hc]
  · rintro rfl hb; simp [step_wait_tail2, hb]

/-- Witness of C4: after `AA AF 01 02 03` the parser is receiving data with 3
bytes held, and the byte `42` is the 4th data byte. -/
theorem transition_table_witness :
    (u3_packet_parser_call (stateAfter u3_init [0xAA, 0xAF, 1, 2, 3]) 0x42).1.packet_buffer.getD
        (2 + (stateAfter u3_init [0xAA, 0xAF, 1, 2, 3]).data_index) 0 = 0x42 ∧
    (u3_packet_parser_call (stateAfter u3_init [0xAA, 0xAF, 1, 2, 3]) 0x42).1.data_index =
      (stateAfter u3_init [0xAA, 0xAF, 1, 2, 3]).data_index + 1 ∧
    (u3_packet_parser_call (stateAfter u3_init [0xAA, 0xAF, 1, 2, 3]) 0x42).1.parse_state =
      (if (stateAfter u3_init [0xAA, 0xAF, 1, 2, 3]).data_index + 1 = 4 then STATE_WAIT_TAIL1
       else STATE_RECEIVE_DATA) ∧
    (u3_packet_parser_call (stateAfter u3_init [0xAA, 0xAF, 1, 2, 3]) 0x42).2 = 0 :=
  (transition_table (stateAfter u3_init [0xAA, 0xAF, 1, 2, 3]) 0x42 (by decide)
    (by decide)).2.2.2.2.1 (by decide)

/-- C5, as stated, fails: after `AA` the parser waits for the second header
byte, and the byte `00`, which is not `AF`, makes it return 0 and not -1. -/
theorem header_mismatch_returns_zero :
    (stateAfter u3_init [0xAA]).parse_state = STATE_WAIT_HEAD2 ∧ (0x00 : Nat) ≠ 0xAF ∧
    (u3_packet_parser_call (stateAfter u3_init [0xAA]) 0x00).2 = 0 ∧
    (u3_packet_parser_call (stateAfter u3_init [0xAA]) 0x00).2 ≠ -1 := by
  decide

/-- C5, amended: the parser returns -1 whenever the byte fails trailer
validation (waiting for the first tail byte and byte not `FA`, or waiting for
the second tail byte and byte not `FF`), and only then; a byte that fails header
validation (waiting for the second header byte and byte not `AF`) returns 0 and
sends the parser back to waiting for the first header byte. -/
theorem error_iff_trailer_mismatch (s : ParserState) (b : Nat) :
    ((u3_packet_parser_call s b).2 = -1 ↔
      (s.parse_state = STATE_WAIT_TAIL1 ∧ b ≠ 0xFA) ∨
      (s.parse_state = STATE_WAIT_TAIL2 ∧ b ≠ 0xFF)) ∧
    (s.parse_state = STATE_WAIT_HEAD2 ∧ b ≠ 0xAF →
      (u3_packet_parser_call s b).2 = 0 ∧
      (u3_packet_parser_call s b).1.parse_state = STATE_WAIT_HEAD1) := by
  obtain ⟨c, st, di, pb, rx⟩ := s
  cases st with
  | STATE_WAIT_HEAD1 => rw [step_wait_head1]; by_cases hb : b = 0xAA <;> simp [hb]
  | STATE_WAIT_HEAD2 => rw [step_wait_head2]; by_cases hb : b = 0xAF <;> simp [hb]
  | STATE_RECEIVE_DATA => simp [u3_packet_parser_call]
  | STATE_WAIT_TAIL1 => rw [step_wait_tail1]; by_cases hb : b = 0xFA <;> simp [hb]
  | STATE_WAIT_TAIL2 =>
    rw [step_wait_tail2]
    by_cases hb : b = 0xFF <;> by_cases hc : c < 10 <;> simp [hb, hc]

/-- Witness of the amended C5: the byte `00` received while waiting for the
second header byte. -/
theorem error_iff_trailer_mismatch_witness :
    (u3_packet_parser_call (stateAfter u3_init [0xAA]) 0x00).2 = 0 ∧
    (u3_packet_parser_call (stateAfter u3_init [0xAA]) 0x00).1.parse_state = STATE_WAIT_HEAD1 :=
  (error_iff_trailer_mismatch (stateAfter u3_init [0xAA]) 0x00).2 (by decide)

theorem store_packet_length (rx : List (List Nat)) (c : Nat) (pb : List Nat) :
    (store_packet rx c pb).length = rx.length := by
  simp [store_packet, range_four]

theorem store_packet_other (rx : List (List Nat)) (c j : Nat) (pb : List Nat) (h : j ≠ c) :
    (store_packet rx c pb)[j]? = rx[j]? := by
  simp [store_packet, range_four, List.getElem?_set_ne (Ne.symm h)]

/-- C10: a call that does not return 1 leaves every slot of `my_msg_rx` and the
cursor unchanged; a call that returns 1, the cursor `c` being a slot of the
store, sets the cursor to `(c + 1) mod 10` and changes no slot other than
slot `c`. -/
theorem store_frame_condition (s : ParserState) (b : Nat) (hc : s.packet_count < 10) :
    ((u3_packet_parser_call s b).2 ≠ 1 →
      (u3_packet_parser_call s b).1.my_msg_rx = s.my_msg_rx ∧
      (u3_packet_parser_call s b).1.packet_count = s.packet_count) ∧
    ((u3_packet_parser_call s b).2 = 1 →
      (u3_packet_parser_call s b).1.packet_count = (s.packet_count + 1) % 10 ∧
      (u3_packet_parser_call s b).1.my_msg_rx.length = s.my_msg_rx.length ∧
      ∀ j, j ≠ s.packet_count →
        (u3_packet_parser_call s b).1.my_msg_rx[j]? = s.my_msg_rx[j]?) := by
  obtain ⟨c, st, di, pb, rx⟩ := s
  simp only at hc
  cases st with
  | STATE_WAIT_HEAD1 => rw [step_wait_head1]; by_cases hb : b = 0xAA <;> simp [hb]
  | STATE_WAIT_HEAD2 => rw [step_wait_head2]; by_cases hb : b = 0xAF <;> simp [hb]
  | STATE_RECEIVE_DATA =>
    by_cases h : di < 4
    · rw [step_receive_data _ _ _ _ _ h]; simp
    · simp [u3_packet_parser_call, h]
      split <;> simp
  | STATE_WAIT_TAIL1 => rw [step_wait_tail1]; by_cases hb : b = 0xFA <;> simp [hb]
  | STATE_WAIT_TAIL2 =>
    rw [step_wait_tail2]
    by_cases hb : b = 0xFF
    · rw [if_pos hb, if_pos hc]
      exact ⟨fun h => absurd rfl h,
        fun _ => ⟨rfl, store_packet_length _ _ _, fun j hj => store_packet_other _ _ _ _ hj⟩⟩
    · simp [hb]

/-- Witness of C10: the last byte of a frame received from the initial state
completes it, moves the cursor from 0 to 1 and leaves slot 5 alone. -/
theorem store_frame_condition_witness :
    (u3_packet_parser_call (stateAfter u3_init [0xAA, 0xAF, 1, 2, 3, 4, 0xFA]) 0xFF).1.packet_count
      = ((stateAfter u3_init [0xAA, 0xAF, 1, 2, 3, 4, 0xFA]).packet_count + 1) % 10 ∧
    (u3_packet_parser_call (stateAfter u3_init [0xAA, 0xAF, 1, 2, 3, 4, 0xFA])
      0xFF).1.my_msg_rx[5]? = (stateAfter u3_init [0xAA, 0xAF, 1, 2, 3, 4, 0xFA]).my_msg_rx[5]? :=
  ⟨((store_frame_condition (stateAfter u3_init [0xAA, 0xAF, 1, 2, 3, 4, 0xFA]) 0xFF
      (by decide)).2 (by decide)).1,
    ((store_frame_condition (stateAfter u3_init [0xAA, 0xAF, 1, 2, 3, 4, 0xFA]) 0xFF
      (by decide)).2 (by decide)).2.2 5 (by decide)⟩

/-! ## Corrupted trailers -/

/-- C8: for every payload and every byte `X` other than `FF`, the stream
`AA AF P0 P1 P2 P3 FA X` fed to a parser waiting for the first header byte
returns 0 on the first seven bytes and -1 on the 8th, leaves the store and its
cursor unchanged, and leaves the parser waiting for the first header byte, so
that a following `AA` moves it to waiting for the second header byte. -/
theorem trailer_corruption_detected (s : ParserState) (p0 p1 p2 p3 x : Nat)
    (hs : s.parse_state = STATE_WAIT_HEAD1) (hx : x ≠ 0xFF) :
    returns s [0xAA, 0xAF, p0, p1, p2, p3, 0xFA, x] = [0, 0, 0, 0, 0, 0, 0, -1] ∧
    (stateAfter s [0xAA, 0xAF, p0, p1, p2, p3, 0xFA, x]).my_msg_rx = s.my_msg_rx ∧
    (stateAfter s [0xAA, 0xAF, p0, p1, p2, p3, 0xFA, x]).packet_count = s.packet_count ∧
    (stateAfter s [0xAA, 0xAF, p0, p1, p2, p3, 0xFA, x]).parse_state = STATE_WAIT_HEAD1 ∧
    (u3_packet_parser_call (stateAfter s [0xAA, 0xAF, p0, p1, p2, p3, 0xFA, x]) 0xAA).1.parse_state
      = STATE_WAIT_HEAD2 ∧
    (u3_packet_parser_call (stateAfter s [0xAA, 0xAF, p0, p1, p2, p3, 0xFA, x]) 0xAA).2 = 0 := by
  obtain ⟨c, st, di, pb, rx⟩ := s
  simp only at hs
  subst hs
  have hst : stateAfter ⟨c, STATE_WAIT_HEAD1, di, pb, rx⟩ [0xAA, 0xAF, p0, p1, p2, p3, 0xFA, x] =
      ⟨c, STATE_WAIT_HEAD1, 4,
        ((((((pb.set 0 0xAA).set 1 0xAF).set 2 p0).set 3 p1).set 4 p2).set 5 p3).set 6 0xFA,
        rx⟩ := by
    simp [stateAfter, step_wait_head1, step_wait_head2, step_receive_data, step_wait_tail1,
      step_wait_tail2, hx]
  rw [hst]
  refine ⟨?_, rfl, rfl, rfl, ?_, ?_⟩
  · simp [returns, step_wait_head1, step_wait_head2, step_receive_data, step_wait_tail1,
      step_wait_tail2, hx]
  · simp [step_wait_head1]
  · simp [step_wait_head1]

/-- Witness of C8 at the initial parser, the payload `01 02 03 04` and the
wrong last byte `FE`. -/
theorem trailer_corruption_detected_witness :
    returns u3_init [0xAA, 0xAF, 1, 2, 3, 4, 0xFA, 0xFE] = [0, 0, 0, 0, 0, 0, 0, -1] ∧
    (stateAfter u3_init [0xAA, 0xAF, 1, 2, 3, 4, 0xFA, 0xFE]).my_msg_rx = u3_init.my_msg_rx ∧
    (stateAfter u3_init [0xAA, 0xAF, 1, 2, 3, 4, 0xFA, 0xFE]).packet_count
      = u3_init.packet_count ∧
    (stateAfter u3_init [0xAA, 0xAF, 1, 2, 3, 4, 0xFA, 0xFE]).parse_state = STATE_WAIT_HEAD1 ∧
    (u3_packet_parser_call (stateAfter u3_init [0xAA, 0xAF, 1, 2, 3, 4, 0xFA, 0xFE])
      0xAA).1.parse_state = STATE_WAIT_HEAD2 ∧
    (u3_packet_parser_call (stateAfter u3_init [0xAA, 0xAF, 1, 2, 3, 4, 0xFA, 0xFE]) 0xAA).2 = 0 :=
  trailer_corruption_detected u3_init 1 2 3 4 0xFE rfl (by decide)

/-! ## Frames in sequence and wraparound of the store -/

theorem encode_eq (p0 p1 p2 p3 : Nat) :
    encode [p0, p1, p2, p3] = [0xAA, 0xAF, p0, p1, p2, p3, 0xFA, 0xFF] :=
  send_u3_data_frame _ p0 p1 p2 p3 (by decide)

theorem frames_append (xs ys : List (List Nat)) : frames (xs ++ ys) = frames xs ++ frames ys := by
  induction xs with
  | nil => rfl
  | cons x xs ih => simp [frames, ih]

theorem push_all_cursor (rx : List (List Nat)) (c : Nat) (qs : List (List Nat)) (hc : c < 10) :
    (push_all rx c qs).2 = (c + qs.length) % 10 := by
  induction qs generalizing rx c with
  | nil => simp [push_all]; omega
  | cons q qs ih =>
    rw [push_all, ih _ _ (Nat.mod_lt _ (by decide))]
    simp only [List.length_cons]
    omega

/-- A sequence of valid frames received by a well-formed parser waiting for a
header: every frame completes and the payloads are pushed in order. -/
theorem frames_run (s : ParserState) (qs : List (List Nat))
    (hs : s.parse_state = STATE_WAIT_HEAD1) (hc : s.packet_count < 10) (hwf : WellFormed s)
    (hq : ∀ q ∈ qs, q.length = 4) :
    (stateAfter s (frames qs)).parse_state = STATE_WAIT_HEAD1 ∧
    WellFormed (stateAfter s (frames qs)) ∧
    (stateAfter s (frames qs)).packet_count = (push_all s.my_msg_rx s.packet_count qs).2 ∧
    (stateAfter s (frames qs)).my_msg_rx = (push_all s.my_msg_rx s.packet_count qs).1 ∧
    returns s (frames qs) = completions qs.length := by
  induction qs generalizing s with
  | nil => exact ⟨hs, hwf, rfl, rfl, rfl⟩
  | cons q qs ih =>
    obtain ⟨p0, p1, p2, p3, rfl⟩ := length_four q (hq q (List.mem_cons_self _ _))
    have hq' : ∀ q ∈ qs, q.length = 4 := fun q h => hq q (List.mem_cons_of_mem _ h)
    have hst := frame_stored s p0 p1 p2 p3 hs hc hwf
    have hwf' := wellFormed_set s hwf ((s.packet_count + 1) % 10) STATE_WAIT_HEAD1 4
      [0xAA, 0xAF, p0, p1, p2, p3, 0xFA, 0xFF] rfl s.packet_count [p0, p1, p2, p3] rfl
    have hret : returns s [0xAA, 0xAF, p0, p1, p2, p3, 0xFA, 0xFF] = [0, 0, 0, 0, 0, 0, 0, 1] := by
      obtain ⟨c, st, di, pb, rx⟩ := s
      simp only at hs
      subst hs
      exact (frame_run c di pb rx p0 p1 p2 p3).1
    obtain ⟨h1, h2, h3, h4, h5⟩ := ih _ rfl (Nat.mod_lt _ (by decide)) hwf' hq'
    simp only [frames, encode_eq, stateAfter_append, returns_append, hst, hret, push_all,
      List.length_cons, completions]
    exact ⟨h1, h2, h3, h4, by rw [h5]⟩

/-- C9: from the initial parser, every one of a sequence of valid frames
returns 1 on its last byte; the `k`-th completed frame is written to slot
`(k - 1) mod 10`, the cursor standing there before it; and after 13 frames with
payloads `q1 .. q13` slots 0, 1, 2 hold `q11, q12, q13`, slots 3 .. 9 hold
`q4 .. q10`, and the cursor is 3. -/
theorem store_wraparound (qs : List (List Nat)) (hq : ∀ q ∈ qs, q.length = 4) :
    returns u3_init (frames qs) = completions qs.length ∧
    (∀ k, 1 ≤ k → k ≤ qs.length →
      (stateAfter u3_init (frames (qs.take (k - 1)))).packet_count = (k - 1) % 10 ∧
      (stateAfter u3_init (frames (qs.take k))).my_msg_rx.getD ((k - 1) % 10) [] =
        qs.getD (k - 1) []) ∧
    (qs.length = 13 →
      (stateAfter u3_init (frames qs)).my_msg_rx =
        [qs.getD 10 [], qs.getD 11 [], qs.getD 12 [], qs.getD 3 [], qs.getD 4 [], qs.getD 5 [],
          qs.getD 6 [], qs.getD 7 [], qs.getD 8 [], qs.getD 9 []] ∧
      (stateAfter u3_init (frames qs)).packet_count = 3) := by
  have hinit : WellFormed u3_init := by decide
  refine ⟨(frames_run u3_init qs rfl (by decide) hinit hq).2.2.2.2, ?_, ?_⟩
  · intro k hk1 hk
    obtain ⟨j, rfl⟩ : ∃ j, k = j + 1 := ⟨k - 1, by omega⟩
    simp only [Nat.add_sub_cancel]
    have hj : j < qs.length := by omega
    have hq1 : ∀ q ∈ qs.take j, q.length = 4 := fun q h => hq q (List.mem_of_mem_take h)
    obtain ⟨h1, h2, h3, -, -⟩ := frames_run u3_init (qs.take j) rfl (by decide) hinit hq1
    have hcur : (stateAfter u3_init (frames (qs.take j))).packet_count = j % 10 := by
      rw [h3, push_all_cursor _ _ _ (by decide), List.length_take]
      simp [u3_init, Nat.min_eq_left (Nat.le_of_lt hj)]
    refine ⟨hcur, ?_⟩
    have htake : qs.take (j + 1) = qs.take j ++ [qs[j]] := by
      rw [List.take_succ, List.getElem?_eq_getElem hj]; rfl
    obtain ⟨p0, p1, p2, p3, hp⟩ := length_four qs[j] (hq _ (List.getElem_mem hj))
    have hget : qs.getD j [] = [p0, p1, p2, p3] := by
      rw [List.getD_eq_getElem?_getD, List.getElem?_eq_getElem hj, ← hp]; rfl
    have hlt : (stateAfter u3_init (frames (qs.take j))).packet_count < 10 := by
      rw [hcur]; exact Nat.mod_lt _ (by decide)
    have hlen : j % 10 < (stateAfter u3_init (frames (qs.take j))).my_msg_rx.length := by
      rw [h2.2.1]; exact Nat.mod_lt _ (by decide)
    rw [htake, frames_append, stateAfter_append, hp, hget]
    simp only [frames, List.append_nil, encode_eq]
    rw [frame_stored _ p0 p1 p2 p3 h1 hlt h2, hcur]
    exact getD_set_self _ _ _ _ hlen
  · intro h13
    obtain ⟨-, -, h3, h4, -⟩ := frames_run u3_init qs rfl (by decide) hinit hq
    rw [h3, h4]
    rcases qs with _ | ⟨q1, _ | ⟨q2, _ | ⟨q3, _ | ⟨q4, _ | ⟨q5, _ | ⟨q6, _ | ⟨q7, _ | ⟨q8, _ |
      ⟨q9, _ | ⟨q10, _ | ⟨q11, _ | ⟨q12, _ | ⟨q13, _ | ⟨q14, qs⟩⟩⟩⟩⟩⟩⟩⟩⟩⟩⟩⟩⟩⟩ <;>
      simp at h13
    exact ⟨rfl, rfl⟩

/-- Witness of C9: thirteen distinct payloads from the initial parser. -/
theorem store_wraparound_witness :
    (stateAfter u3_init (frames sample_payloads)).my_msg_rx =
      [[11, 0x1A, 0x2A, 0x3A], [12, 0x1B, 0x2B, 0x3B], [13, 0x1C, 0x2C, 0x3C],
        [4, 0x13, 0x23, 0x33], [5, 0x14, 0x24, 0x34], [6, 0x15, 0x25, 0x35],
        [7, 0x16, 0x26, 0x36], [8, 0x17, 0x27, 0x37], [9, 0x18, 0x28, 0x38],
        [10, 0x19, 0x29, 0x39]] ∧
    (stateAfter u3_init (frames sample_payloads)).packet_count = 3 :=
  (store_wraparound sample_payloads (by decide)).2.2 (by decide)

/-! ## What a completion tells about the eight calls before it -/

theorem rd_bound_step (s : ParserState) (b : Nat)
    (h : s.parse_state = STATE_RECEIVE_DATA → s.data_index < 4) :
    (u3_packet_parser_call s b).1.parse_state = STATE_RECEIVE_DATA →
      (u3_packet_parser_call s b).1.data_index < 4 := by
  obtain ⟨c, st, di, pb, rx⟩ := s
  simp only at h
  cases st with
  | STATE_WAIT_HEAD1 => rw [step_wait_head1]; by_cases hb : b = 0xAA <;> simp [hb]
  | STATE_WAIT_HEAD2 => rw [step_wait_head2]; by_cases hb : b = 0xAF <;> simp [hb]
  | STATE_RECEIVE_DATA =>
    have h4 := h rfl
    rw [step_receive_data _ _ _ _ _ h4]
    by_cases h3 : di = 3
    · simp [h3]
    · simp [h3]; omega
  | STATE_WAIT_TAIL1 => rw [step_wait_tail1]; by_cases hb : b = 0xFA <;> simp [hb]
  | STATE_WAIT_TAIL2 =>
    rw [step_wait_tail2]
    by_cases hb : b = 0xFF <;> by_cases hc : c < 10 <;> simp [hb, hc]

theorem rd_bound_run (bs : List Nat) (s : ParserState)
    (h : s.parse_state = STATE_RECEIVE_DATA → s.data_index < 4) :
    (stateAfter s bs).parse_state = STATE_RECEIVE_DATA → (stateAfter s bs).data_index < 4 := by
  induction bs generalizing s with
  | nil => exact h
  | cons b bs ih => exact ih _ (rd_bound_step s b h)

/-- The state before a call, read off the state after it. -/
theorem step_pred (s : ParserState) (b : Nat)
    (h : s.parse_state = STATE_RECEIVE_DATA → s.data_index < 4) :
    ((u3_packet_parser_call s b).1.parse_state = STATE_WAIT_HEAD2 →
      s.parse_state = STATE_WAIT_HEAD1) ∧
    ((u3_packet_parser_call s b).1.parse_state = STATE_RECEIVE_DATA →
      (s.parse_state = STATE_WAIT_HEAD2 ∧ (u3_packet_parser_call s b).1.data_index = 0) ∨
      (s.parse_state = STATE_RECEIVE_DATA ∧
        (u3_packet_parser_call s b).1.data_index = s.data_index + 1)) ∧
    ((u3_packet_parser_call s b).1.parse_state = STATE_WAIT_TAIL1 →
      s.parse_state = STATE_RECEIVE_DATA ∧ s.data_index = 3) ∧
    ((u3_packet_parser_call s b).1.parse_state = STATE_WAIT_TAIL2 →
      s.parse_state = STATE_WAIT_TAIL1) := by
  obtain ⟨c, st, di, pb, rx⟩ := s
  simp only at h
  cases st with
  | STATE_WAIT_HEAD1 => rw [step_wait_head1]; by_cases hb : b = 0xAA <;> simp [hb]
  | STATE_WAIT_HEAD2 => rw [step_wait_head2]; by_cases hb : b = 0xAF <;> simp [hb]
  | STATE_RECEIVE_DATA =>
    have h4 := h rfl
    rw [step_receive_data _ _ _ _ _ h4]
    by_cases h3 : di = 3 <;> simp [h3]
  | STATE_WAIT_TAIL1 => rw [step_wait_tail1]; by_cases hb : b = 0xFA <;> simp [hb]
  | STATE_WAIT_TAIL2 =>
    rw [step_wait_tail2]
    by_cases hb : b = 0xFF <;> by_cases hc : c < 10 <;> simp [hb, hc]

/-- A call that returns 1 as the 8th of eight calls was started, eight calls
earlier, by a parser waiting for the first header byte. -/
theorem complete_needs_head1 (s : ParserState) (l0 l1 l2 l3 l4 l5 l6 b : Nat)
    (hI : s.parse_state = STATE_RECEIVE_DATA → s.data_index < 4)
    (h : (u3_packet_parser_call (stateAfter s [l0, l1, l2, l3, l4, l5, l6]) b).2 = 1) :
    s.parse_state = STATE_WAIT_HEAD1 := by
  simp only [stateAfter] at h
  generalize hs1 : (u3_packet_parser_call s l0).1 = s1 at h
  generalize hs2 : (u3_packet_parser_call s1 l1).1 = s2 at h
  generalize hs3 : (u3_packet_parser_call s2 l2).1 = s3 at h
  generalize hs4 : (u3_packet_parser_call s3 l3).1 = s4 at h
  generalize hs5 : (u3_packet_parser_call s4 l4).1 = s5 at h
  generalize hs6 : (u3_packet_parser_call s5 l5).1 = s6 at h
  generalize hs7 : (u3_packet_parser_call s6 l6).1 = s7 at h
  have hI1 : s1.parse_state = STATE_RECEIVE_DATA → s1.data_index < 4 := by
    rw [← hs1]; exact rd_bound_step s l0 hI
  have hI2 : s2.parse_state = STATE_RECEIVE_DATA → s2.data_index < 4 := by
    rw [← hs2]; exact rd_bound_step s1 l1 hI1
  have hI3 : s3.parse_state = STATE_RECEIVE_DATA → s3.data_index < 4 := by
    rw [← hs3]; exact rd_bound_step s2 l2 hI2
  have hI4 : s4.parse_state = STATE_RECEIVE_DATA → s4.data_index < 4 := by
    rw [← hs4]; exact rd_bound_step s3 l3 hI3
  have hI5 : s5.parse_state = STATE_RECEIVE_DATA → s5.data_index < 4 := by
    rw [← hs5]; exact rd_bound_step s4 l4 hI4
  have hI6 : s6.parse_state = STATE_RECEIVE_DATA → s6.data_index < 4 := by
    rw [← hs6]; exact rd_bound_step s5 l5 hI5
  have h7 : s7.parse_state = STATE_WAIT_TAIL2 := (complete_only_in_tail2 s7 b h).1
  have h6 : s6.parse_state = STATE_WAIT_TAIL1 := by
    rw [← hs7] at h7; exact (step_pred s6 l6 hI6).2.2.2 h7
  have h5 : s5.parse_state = STATE_RECEIVE_DATA ∧ s5.data_index = 3 := by
    rw [← hs6] at h6; exact (step_pred s5 l5 hI5).2.2.1 h6
  have h4 : s4.parse_state = STATE_RECEIVE_DATA ∧ s4.data_index = 2 := by
    obtain ⟨h5a, h5b⟩ := h5
    rw [← hs5] at h5a h5b
    rcases (step_pred s4 l4 hI4).2.1 h5a with ⟨-, h0⟩ | ⟨hr, hd⟩
    · omega
    · exact ⟨hr, by omega⟩
  have h3 : s3.parse_state = STATE_RECEIVE_DATA ∧ s3.data_index = 1 := by
    obtain ⟨h4a, h4b⟩ := h4
    rw [← hs4] at h4a h4b
    rcases (step_pred s3 l3 hI3).2.1 h4a with ⟨-, h0⟩ | ⟨hr, hd⟩
    · omega
    · exact ⟨hr, by omega⟩
  have h2 : s2.parse_state = STATE_RECEIVE_DATA ∧ s2.data_index = 0 := by
    obtain ⟨h3a, h3b⟩ := h3
    rw [← hs3] at h3a h3b
    rcases (step_pred s2 l2 hI2).2.1 h3a with ⟨-, h0⟩ | ⟨hr, hd⟩
    · omega
    · exact ⟨hr, by omega⟩
  have h1 : s1.parse_state = STATE_WAIT_HEAD2 := by
    obtain ⟨h2a, h2b⟩ := h2
    rw [← hs2] at h2a h2b
    rcases (step_pred s1 l1 hI1).2.1 h2a with ⟨hw, -⟩ | ⟨-, hd⟩
    · exact hw
    · omega
  rw [← hs1] at h1
  exact (step_pred s l0 hI).1 h1

/-- Started while waiting for the first header byte, the parser keeps its
arrays in shape and its cursor on a slot, whatever the bytes. -/
theorem shape_kept (s : ParserState) (bs : List Nat) (hs : s.parse_state = STATE_WAIT_HEAD1)
    (hc : s.packet_count < 10) (hwf : WellFormed s) :
    WellFormed (stateAfter s bs) ∧ (stateAfter s bs).packet_count < 10 := by
  have ht : Trail s [] := by
    refine ⟨hwf, hc, ?_⟩
    rw [hs]
    trivial
  obtain ⟨h1, h2, -⟩ := trail_stateAfter s [] bs ht
  exact ⟨h1, h2⟩

/-- The 8th of eight calls on a valid frame returns 1 only if the parser was
waiting for the first header byte before the frame. -/
theorem frame_completes_only_from_head1 (t : ParserState) (p0 p1 p2 p3 : Nat)
    (hI : t.parse_state = STATE_RECEIVE_DATA → t.data_index < 4)
    (h : (returns t [0xAA, 0xAF, p0, p1, p2, p3, 0xFA, 0xFF])[7]? = some 1) :
    t.parse_state = STATE_WAIT_HEAD1 := by
  obtain ⟨b, hb, hret, -⟩ := returns_getElem t _ 7 1 h
  simp at hb
  subst hb
  exact complete_needs_head1 t 0xAA 0xAF p0 p1 p2 p3 0xFA 0xFF hI hret

/-! ## Noise before a frame -/

theorem length_seven {α : Type} (l : List α) (h : l.length = 7) :
    ∃ w0 w1 w2 w3 w4 w5 w6, l = [w0, w1, w2, w3, w4, w5, w6] := by
  rcases l with _ | ⟨w0, _ | ⟨w1, _ | ⟨w2, _ | ⟨w3, _ | ⟨w4, _ | ⟨w5, _ | ⟨w6, _ |
    ⟨w7, l⟩⟩⟩⟩⟩⟩⟩⟩ <;> simp at h
  exact ⟨w0, w1, w2, w3, w4, w5, w6, rfl⟩

/-- A noise segment, received while waiting for the first header byte, leaves
the parser waiting for the first header byte and completes nothing. -/
theorem noise_segment_run (s : ParserState) (g : List Nat)
    (hs : s.parse_state = STATE_WAIT_HEAD1) (hg : noise_segment g) :
    (stateAfter s g).parse_state = STATE_WAIT_HEAD1 ∧ (returns s g).count 1 = 0 := by
  obtain ⟨c, st, di, pb, rx⟩ := s
  simp only at hs
  subst hs
  rcases hg with ⟨hlen, hb⟩ | ⟨hlen, ha, hb⟩ | ⟨hlen, hhead, ht⟩ | ⟨hlen, hhead, ht1, ht2⟩
  · obtain ⟨b, rfl⟩ := List.length_eq_one.mp hlen
    simp at hb
    simp [stateAfter, returns, step_wait_head1, hb]
  · obtain ⟨a, b, rfl⟩ := List.length_eq_two.mp hlen
    simp at ha hb
    subst ha
    simp [stateAfter, returns, step_wait_head1, step_wait_head2, hb]
  · obtain ⟨w0, w1, w2, w3, w4, w5, w6, rfl⟩ := length_seven g hlen
    simp at hhead ht
    obtain ⟨rfl, rfl⟩ := hhead
    simp [stateAfter, returns, step_wait_head1, step_wait_head2, step_receive_data,
      step_wait_tail1, ht]
  · obtain ⟨w0, w1, w2, w3, w4, w5, w6, w7, rfl⟩ := length_eight g hlen
    simp at hhead ht1 ht2
    obtain ⟨rfl, rfl⟩ := hhead
    subst ht1
    simp [stateAfter, returns, step_wait_head1, step_wait_head2, step_receive_data,
      step_wait_tail1, step_wait_tail2, ht2]

theorem noise_segments_run (s : ParserState) (segs : List (List Nat))
    (hs : s.parse_state = STATE_WAIT_HEAD1) (hg : ∀ g ∈ segs, noise_segment g) :
    (stateAfter s (stream_of segs)).parse_state = STATE_WAIT_HEAD1 ∧
      (returns s (stream_of segs)).count 1 = 0 := by
  induction segs generalizing s with
  | nil => exact ⟨hs, rfl⟩
  | cons g segs ih =>
    obtain ⟨h1, h2⟩ := noise_segment_run s g hs (hg g (List.mem_cons_self _ _))
    obtain ⟨h3, h4⟩ := ih _ h1 (fun g' hg' => hg g' (List.mem_cons_of_mem _ hg'))
    simp only [stream_of, stateAfter_append, returns_append, List.count_append]
    exact ⟨h3, by omega⟩

theorem noise_segment_length (g : List Nat) (hg : noise_segment g) : 0 < g.length := by
  rcases hg with ⟨h, -⟩ | ⟨h, -⟩ | ⟨h, -⟩ | ⟨h, -⟩ <;> omega

/-- One step of the splitting of noise into segments: a segment in front is
set aside and the rest is split by the induction hypothesis. -/
theorem peel_segment (n : Nat)
    (ih : ∀ (noise : List Nat) (s : ParserState), noise.length ≤ n →
      s.parse_state = STATE_WAIT_HEAD1 →
      (stateAfter s noise).parse_state = STATE_WAIT_HEAD1 → (returns s noise).count 1 = 0 →
      ∃ segs, noise = stream_of segs ∧ ∀ g ∈ segs, noise_segment g)
    (s : ParserState) (g rest : List Nat) (hs : s.parse_state = STATE_WAIT_HEAD1)
    (hg : noise_segment g) (hlen : (g ++ rest).length ≤ n + 1)
    (hst : (stateAfter s (g ++ rest)).parse_state = STATE_WAIT_HEAD1)
    (hcnt : (returns s (g ++ rest)).count 1 = 0) :
    ∃ segs, g ++ rest = stream_of segs ∧ ∀ g' ∈ segs, noise_segment g' := by
  have hpos := noise_segment_length g hg
  obtain ⟨h1, h2⟩ := noise_segment_run s g hs hg
  rw [stateAfter_append] at hst
  rw [returns_append, List.count_append] at hcnt
  rw [List.length_append] at hlen
  obtain ⟨segs, e, hall⟩ := ih rest (stateAfter s g) (by omega) h1 hst (by omega)
  refine ⟨g :: segs, by rw [stream_of, ← e], ?_⟩
  intro g' hg'
  rcases List.mem_cons.mp hg' with h | h
  · rw [h]; exact hg
  · exact hall g' h

/-- Noise that leaves a parser, started waiting for the first header byte,
waiting for the first header byte again without completing a frame, is made of
noise segments. -/
theorem segments_of_quiet_run (n : Nat) : ∀ (noise : List Nat) (s : ParserState),
    noise.length ≤ n → s.parse_state = STATE_WAIT_HEAD1 →
    (stateAfter s noise).parse_state = STATE_WAIT_HEAD1 → (returns s noise).count 1 = 0 →
    ∃ segs, noise = stream_of segs ∧ ∀ g ∈ segs, noise_segment g := by
  induction n with
  | zero =>
    intro noise s hlen _ _ _
    have : noise = [] := List.length_eq_zero.mp (by omega)
    exact ⟨[], by rw [this]; rfl, by simp⟩
  | succ n ih =>
    intro noise s hlen hs hst hcnt
    rcases noise with _ | ⟨b, rest⟩
    · exact ⟨[], rfl, by simp⟩
    by_cases hb : b = 0xAA
    swap
    · exact peel_segment n ih s [b] rest hs (Or.inl ⟨rfl, by simpa using hb⟩) hlen hst hcnt
    subst hb
    obtain ⟨c, st, di, pb, rx⟩ := s
    simp only at hs
    subst hs
    rcases rest with _ | ⟨b1, rest1⟩
    · simp [stateAfter, step_wait_head1] at hst
    by_cases hb1 : b1 = 0xAF
    swap
    · exact peel_segment n ih _ [0xAA, b1] rest1 rfl
        (Or.inr (Or.inl ⟨rfl, rfl, by simpa using hb1⟩)) hlen hst hcnt
    subst hb1
    rcases rest1 with _ | ⟨d0, _ | ⟨d1, _ | ⟨d2, _ | ⟨d3, _ | ⟨t1, rest2⟩⟩⟩⟩⟩
    · simp [stateAfter, step_wait_head1, step_wait_head2] at hst
    · simp [stateAfter, step_wait_head1, step_wait_head2, step_receive_data] at hst
    · simp [stateAfter, step_wait_head1, step_wait_head2, step_receive_data] at hst
    · simp [stateAfter, step_wait_head1, step_wait_head2, step_receive_data] at hst
    · simp [stateAfter, step_wait_head1, step_wait_head2, step_receive_data] at hst
    by_cases ht1 : t1 = 0xFA
    swap
    · exact peel_segment n ih _ [0xAA, 0xAF, d0, d1, d2, d3, t1] rest2 rfl
        (Or.inr (Or.inr (Or.inl ⟨rfl, rfl, by simpa using ht1⟩))) hlen hst hcnt
    subst ht1
    rcases rest2 with _ | ⟨t2, rest3⟩
    · simp [stateAfter, step_wait_head1, step_wait_head2, step_receive_data,
        step_wait_tail1] at hst
    by_cases ht2 : t2 = 0xFF
    · subst ht2
      by_cases hc : c < 10 <;>
        simp [returns, step_wait_head1, step_wait_head2, step_receive_data, step_wait_tail1,
          step_wait_tail2, hc] at hcnt
    · exact peel_segment n ih _ [0xAA, 0xAF, d0, d1, d2, d3, 0xFA, t2] rest3 rfl
        (Or.inr (Or.inr (Or.inr ⟨rfl, rfl, rfl, by simpa using ht2⟩))) hlen hst hcnt

/-- C6, as stated, fails: the single noise byte `AA` leaves the parser waiting
for the second header byte, the `AA` of the frame that follows is then taken
for a header mismatch, and the frame is lost: none of the nine calls returns 1. -/
theorem noise_ending_in_head1_loses_frame :
    returns u3_init ([0xAA] ++ [0xAA, 0xAF, 1, 2, 3, 4, 0xFA, 0xFF]) = [0, 0, 0, 0, 0, 0, 0, 0, 0] ∧
    (returns u3_init ([0xAA] ++ [0xAA, 0xAF, 1, 2, 3, 4, 0xFA, 0xFF])).count 1 = 0 := by
  decide

/-- C6, amended: for every finite sequence of noise bytes (of any length, bytes
`AA` and `AF` included) and every 4-byte payload, the noise followed by the
valid frame, fed to a parser in its initial state, yields exactly one return of
1, on the last byte of the frame, if and only if the noise is made of noise
segments: stray bytes other than `AA`, false starts (`AA` and a byte other than
`AF`) and aborted frames (`AA AF`, four bytes, then a byte other than `FA`, or
`FA` and a byte other than `FF`). For such noise the seven calls before the last
return 0 and the payload is written to the slot the cursor stood at. -/
theorem resync_after_noise (noise : List Nat) (p0 p1 p2 p3 : Nat) :
    ((∃ segs, noise = stream_of segs ∧ ∀ g ∈ segs, noise_segment g) ↔
      (returns u3_init (noise ++ [0xAA, 0xAF, p0, p1, p2, p3, 0xFA, 0xFF])).count 1 = 1 ∧
      (returns u3_init (noise ++ [0xAA, 0xAF, p0, p1, p2, p3, 0xFA, 0xFF])).getLast? = some 1) ∧
    ((∃ segs, noise = stream_of segs ∧ ∀ g ∈ segs, noise_segment g) →
      returns u3_init (noise ++ [0xAA, 0xAF, p0, p1, p2, p3, 0xFA, 0xFF]) =
        returns u3_init noise ++ [0, 0, 0, 0, 0, 0, 0, 1] ∧
      (stateAfter u3_init (noise ++ [0xAA, 0xAF, p0, p1, p2, p3, 0xFA, 0xFF])).my_msg_rx.getD
        (stateAfter u3_init noise).packet_count [] = [p0, p1, p2, p3]) := by
  have hfrom : ∀ t : ParserState, t.parse_state = STATE_WAIT_HEAD1 →
      returns t [0xAA, 0xAF, p0, p1, p2, p3, 0xFA, 0xFF] = [0, 0, 0, 0, 0, 0, 0, 1] := by
    intro t ht
    obtain ⟨c, st, di, pb, rx⟩ := t
    simp only at ht
    subst ht
    exact (frame_run c di pb rx p0 p1 p2 p3).1
  have hfwd : (∃ segs, noise = stream_of segs ∧ ∀ g ∈ segs, noise_segment g) →
      (stateAfter u3_init noise).parse_state = STATE_WAIT_HEAD1 ∧
      (returns u3_init noise).count 1 = 0 := by
    rintro ⟨segs, rfl, hall⟩
    exact noise_segments_run u3_init segs rfl hall
  refine ⟨⟨?_, ?_⟩, ?_⟩
  · intro h
    obtain ⟨hst, hno⟩ := hfwd h
    rw [returns_append, hfrom _ hst]
    constructor
    · rw [List.count_append, hno]; decide
    · simp
  · rintro ⟨hcount, hlast⟩
    rw [returns_append] at hcount hlast
    have hI : (stateAfter u3_init noise).parse_state = STATE_RECEIVE_DATA →
        (stateAfter u3_init noise).data_index < 4 :=
      rd_bound_run noise u3_init (by intro h; exact absurd h (by decide))
    have h7 : (returns (stateAfter u3_init noise) [0xAA, 0xAF, p0, p1, p2, p3, 0xFA, 0xFF])[7]?
        = some 1 := by
      simp only [returns] at hlast ⊢
      simpa using hlast
    have hst := frame_completes_only_from_head1 _ p0 p1 p2 p3 hI h7
    rw [hfrom _ hst, List.count_append] at hcount
    have hno : (returns u3_init noise).count 1 = 0 := by
      have : ([0, 0, 0, 0, 0, 0, 0, 1] : List Int).count 1 = 1 := by decide
      omega
    exact segments_of_quiet_run noise.length noise u3_init (Nat.le_refl _) rfl hst hno
  · intro h
    obtain ⟨hst, -⟩ := hfwd h
    obtain ⟨hwf, hc, -⟩ := trail_reachable noise
    have hlen : (stateAfter u3_init noise).packet_count <
        (stateAfter u3_init noise).my_msg_rx.length := by rw [hwf.2.1]; exact hc
    rw [returns_append, stateAfter_append, hfrom _ hst, frame_stored _ p0 p1 p2 p3 hst hc hwf]
    exact ⟨rfl, getD_set_self _ _ _ _ hlen⟩

/-- Witness of the amended C6: the noise `00`, `AA 13`, `AF`, `AA AA`,
`AA AF 05 06 07 08 00`, `AA AF 09 0A 0B 0C FA AA` holds header bytes, false
starts and two aborted frames. -/
theorem resync_after_noise_witness :
    (returns u3_init (stream_of [[0x00], [0xAA, 0x13], [0xAF], [0xAA, 0xAA],
      [0xAA, 0xAF, 5, 6, 7, 8, 0x00], [0xAA, 0xAF, 9, 10, 11, 12, 0xFA, 0xAA]] ++
      [0xAA, 0xAF, 1, 2, 3, 4, 0xFA, 0xFF])).count 1 = 1 ∧
    (returns u3_init (stream_of [[0x00], [0xAA, 0x13], [0xAF], [0xAA, 0xAA],
      [0xAA, 0xAF, 5, 6, 7, 8, 0x00], [0xAA, 0xAF, 9, 10, 11, 12, 0xFA, 0xAA]] ++
      [0xAA, 0xAF, 1, 2, 3, 4, 0xFA, 0xFF])).getLast? = some 1 :=
  (resync_after_noise (stream_of [[0x00], [0xAA, 0x13], [0xAF], [0xAA, 0xAA],
    [0xAA, 0xAF, 5, 6, 7, 8, 0x00], [0xAA, 0xAF, 9, 10, 11, 12, 0xFA, 0xAA]]) 1 2 3 4).1.mp
    ⟨[[0x00], [0xAA, 0x13], [0xAF], [0xAA, 0xAA], [0xAA, 0xAF, 5, 6, 7, 8, 0x00],
      [0xAA, 0xAF, 9, 10, 11, 12, 0xFA, 0xAA]], rfl, by decide⟩

/-! ## A corrupted frame followed by a valid one -/

/-- The search for a header over the payload and trailer of a frame whose header
was missed ends waiting for the first header byte exactly when the payload shows
no header to it. -/
theorem header_scan (c di : Nat) (pb : List Nat) (rx : List (List Nat)) (p0 p1 p2 p3 : Nat) :
    (stateAfter ⟨c, STATE_WAIT_HEAD1, di, pb, rx⟩ [p0, p1, p2, p3, 0xFA, 0xFF]).parse_state
      = STATE_WAIT_HEAD1 ↔ ¬ header_in_payload p0 p1 p2 p3 := by
  by_cases h0 : p0 = 0xAA
  · subst h0
    by_cases h1 : p1 = 0xAF
    · subst h1
      simp [stateAfter, step_wait_head1, step_wait_head2, step_receive_data, header_in_payload]
    · by_cases h2 : p2 = 0xAA
      · subst h2
        by_cases h3 : p3 = 0xAF
        · subst h3
          simp [stateAfter, step_wait_head1, step_wait_head2, step_receive_data,
            header_in_payload, h1]
        · simp [stateAfter, step_wait_head1, step_wait_head2, header_in_payload, h1, h3]
      · by_cases h3 : p3 = 0xAA
        · subst h3
          simp [stateAfter, step_wait_head1, step_wait_head2, header_in_payload, h1, h2]
        · simp [stateAfter, step_wait_head1, step_wait_head2, header_in_payload, h1, h2, h3]
  · by_cases h1 : p1 = 0xAA
    · subst h1
      by_cases h2 : p2 = 0xAF
      · subst h2
        simp [stateAfter, step_wait_head1, step_wait_head2, step_receive_data,
          header_in_payload, h0]
      · by_cases h3 : p3 = 0xAA
        · subst h3
          simp [stateAfter, step_wait_head1, step_wait_head2, header_in_payload, h0, h2]
        · simp [stateAfter, step_wait_head1, step_wait_head2, header_in_payload, h0, h2, h3]
    · by_cases h2 : p2 = 0xAA
      · subst h2
        by_cases h3 : p3 = 0xAF
        · subst h3
          simp [stateAfter, step_wait_head1, step_wait_head2, step_receive_data,
            header_in_payload, h0, h1]
        · simp [stateAfter, step_wait_head1, step_wait_head2, header_in_payload, h0, h1, h3]
      · by_cases h3 : p3 = 0xAA
        · subst h3
          simp [stateAfter, step_wait_head1, step_wait_head2, header_in_payload, h0, h1, h2]
        · simp [stateAfter, step_wait_head1, step_wait_head2, header_in_payload, h0, h1, h2, h3]

/-- After a frame in which one byte was replaced, the parser waits for the
first header byte again exactly when the byte is at offset 2 or later, or the
payload shows no header to the search that follows a missed header. -/
theorem corrupted_frame_state (s : ParserState) (p0 p1 p2 p3 i x : Nat)
    (hs : s.parse_state = STATE_WAIT_HEAD1) (hc : s.packet_count < 10)
    (hi : i < 8) (hx : x ≠ (encode [p0, p1, p2, p3]).getD i 0) :
    (stateAfter s ((encode [p0, p1, p2, p3]).set i x)).parse_state = STATE_WAIT_HEAD1 ↔
      (2 ≤ i ∨ ¬ header_in_payload p0 p1 p2 p3) := by
  rw [encode_eq] at hx ⊢
  obtain ⟨c, st, di, pb, rx⟩ := s
  simp only at hs hc
  subst hs
  have hvalid : ∀ d0 d1 d2 d3 : Nat,
      (stateAfter ⟨c, STATE_WAIT_HEAD1, di, pb, rx⟩
        [0xAA, 0xAF, d0, d1, d2, d3, 0xFA, 0xFF]).parse_state = STATE_WAIT_HEAD1 := by
    intro d0 d1 d2 d3
    rw [(frame_run c di pb rx d0 d1 d2 d3).2 hc]
  interval_cases i
  · have hx' : x ≠ 0xAA := by simpa using hx
    have hpre : stateAfter ⟨c, STATE_WAIT_HEAD1, di, pb, rx⟩ [x, 0xAF] =
        ⟨c, STATE_WAIT_HEAD1, di, pb, rx⟩ := by
      simp [stateAfter, step_wait_head1, hx']
    have hsplit : [0xAA, 0xAF, p0, p1, p2, p3, 0xFA, 0xFF].set 0 x =
        [x, 0xAF] ++ [p0, p1, p2, p3, 0xFA, 0xFF] := rfl
    rw [hsplit, stateAfter_append, hpre, header_scan]
    simp
  · have hx' : x ≠ 0xAF := by simpa using hx
    have hpre : stateAfter ⟨c, STATE_WAIT_HEAD1, di, pb, rx⟩ [0xAA, x] =
        ⟨c, STATE_WAIT_HEAD1, di, pb.set 0 0xAA, rx⟩ := by
      simp [stateAfter, step_wait_head1, step_wait_head2, hx']
    have hsplit : [0xAA, 0xAF, p0, p1, p2, p3, 0xFA, 0xFF].set 1 x =
        [0xAA, x] ++ [p0, p1, p2, p3, 0xFA, 0xFF] := rfl
    rw [hsplit, stateAfter_append, hpre, header_scan]
    simp
  · exact ⟨fun _ => Or.inl (by decide), fun _ => hvalid x p1 p2 p3⟩
  · exact ⟨fun _ => Or.inl (by decide), fun _ => hvalid p0 x p2 p3⟩
  · exact ⟨fun _ => Or.inl (by decide), fun _ => hvalid p0 p1 x p3⟩
  · exact ⟨fun _ => Or.inl (by decide), fun _ => hvalid p0 p1 p2 x⟩
  · have hx' : x ≠ 0xFA := by simpa using hx
    refine ⟨fun _ => Or.inl (by decide), fun _ => ?_⟩
    simp [stateAfter, step_wait_head1, step_wait_head2, step_receive_data, step_wait_tail1, hx']
  · have hx' : x ≠ 0xFF := by simpa using hx
    refine ⟨fun _ => Or.inl (by decide), fun _ => ?_⟩
    simp [stateAfter, step_wait_head1, step_wait_head2, step_receive_data, step_wait_tail1,
      step_wait_tail2, hx']

/-- C7, as stated, fails: in the frame of the payload `AA AF 00 00` replace the
first byte by `00`; the parser then takes the payload for a header, is still
collecting data when the next frame starts, and the 8th byte of that frame
returns 0, its payload `01 02 03 04` reaching no slot of the store. -/
theorem header_corruption_loses_next_frame :
    (encode [0xAA, 0xAF, 0, 0]).getD 0 0 ≠ 0x00 ∧
    (returns u3_init ((encode [0xAA, 0xAF, 0, 0]).set 0 0x00 ++ encode [1, 2, 3, 4]))[15]?
      = some 0 ∧
    [1, 2, 3, 4] ∉
      (stateAfter u3_init ((encode [0xAA, 0xAF, 0, 0]).set 0 0x00 ++ encode [1, 2, 3, 4])).my_msg_rx
    := by
  decide

/-- C7, amended: for every pair of valid frames `F` and `G` and every copy `F'`
of `F` in which exactly one byte was replaced by a different value, feeding `F'`
followed by `G` to a well-formed parser waiting for the first header byte makes
the call on the 8th byte of `G` return 1 if and only if the replaced byte is at
an offset from 2 to 7 (payload or trailer), or it is a header byte and the
payload of `F` shows no header `AA AF` to the search that follows the missed
header. In these cases the parser waits for the first header byte when `G`
starts and the payload of `G` is written to the slot at the cursor. -/
theorem recovery_after_corrupted_byte (s : ParserState) (p0 p1 p2 p3 g0 g1 g2 g3 i x : Nat)
    (hs : s.parse_state = STATE_WAIT_HEAD1) (hc : s.packet_count < 10) (hwf : WellFormed s)
    (hi : i < 8) (hx : x ≠ (encode [p0, p1, p2, p3]).getD i 0) :
    ((returns s ((encode [p0, p1, p2, p3]).set i x ++ encode [g0, g1, g2, g3]))[15]? = some 1 ↔
      (2 ≤ i ∨ ¬ header_in_payload p0 p1 p2 p3)) ∧
    ((2 ≤ i ∨ ¬ header_in_payload p0 p1 p2 p3) →
      (stateAfter s ((encode [p0, p1, p2, p3]).set i x)).parse_state = STATE_WAIT_HEAD1 ∧
      (stateAfter s ((encode [p0, p1, p2, p3]).set i x ++ encode [g0, g1, g2, g3])).my_msg_rx.getD
        (stateAfter s ((encode [p0, p1, p2, p3]).set i x)).packet_count [] = [g0, g1, g2, g3]) := by
  have hstate := corrupted_frame_state s p0 p1 p2 p3 i x hs hc hi hx
  obtain ⟨h3, h2⟩ := shape_kept s ((encode [p0, p1, p2, p3]).set i x) hs hc hwf
  have hlen8 : (returns s ((encode [p0, p1, p2, p3]).set i x)).length = 8 := by
    have : ∀ (t : ParserState) (l : List Nat), (returns t l).length = l.length := by
      intro t l
      induction l generalizing t with
      | nil => rfl
      | cons b l ih => simp [returns, ih]
    rw [this, encode_eq]; simp
  have hI : (stateAfter s ((encode [p0, p1, p2, p3]).set i x)).parse_state = STATE_RECEIVE_DATA →
      (stateAfter s ((encode [p0, p1, p2, p3]).set i x)).data_index < 4 :=
    rd_bound_run _ s (by rw [hs]; intro h; exact absurd h (by decide))
  have hidx : (returns s ((encode [p0, p1, p2, p3]).set i x ++
        [0xAA, 0xAF, g0, g1, g2, g3, 0xFA, 0xFF]))[15]? =
      (returns (stateAfter s ((encode [p0, p1, p2, p3]).set i x))
        [0xAA, 0xAF, g0, g1, g2, g3, 0xFA, 0xFF])[7]? := by
    rw [returns_append, List.getElem?_append_right (by omega), hlen8]
  have hlen : (stateAfter s ((encode [p0, p1, p2, p3]).set i x)).packet_count <
      (stateAfter s ((encode [p0, p1, p2, p3]).set i x)).my_msg_rx.length := by
    rw [h3.2.1]; exact h2
  rw [encode_eq g0, stateAfter_append]
  generalize stateAfter s ((encode [p0, p1, p2, p3]).set i x) = t at hstate h3 h2 hI hidx hlen ⊢
  have hfrom : t.parse_state = STATE_WAIT_HEAD1 →
      returns t [0xAA, 0xAF, g0, g1, g2, g3, 0xFA, 0xFF] = [0, 0, 0, 0, 0, 0, 0, 1] := by
    intro ht
    obtain ⟨c, st, di, pb, rx⟩ := t
    simp only at ht
    subst ht
    exact (frame_run c di pb rx g0 g1 g2 g3).1
  refine ⟨⟨?_, ?_⟩, ?_⟩
  · intro h
    rw [hidx] at h
    exact hstate.mp (frame_completes_only_from_head1 t g0 g1 g2 g3 hI h)
  · intro h
    rw [hidx, hfrom (hstate.mpr h)]
    rfl
  · intro h
    have h1 := hstate.mpr h
    refine ⟨h1, ?_⟩
    rw [frame_stored t g0 g1 g2 g3 h1 h2 h3]
    exact getD_set_self _ _ _ _ hlen

/-- Witness of the amended C7: the first header byte replaced in the frame of
`AA FF AA FA`, and the second header byte replaced in the frame of
`AA AA AF 00`; the frame of `01 02 03 04` that follows is completed. -/
theorem recovery_after_corrupted_byte_witness :
    (returns u3_init ((encode [0xAA, 0xFF, 0xAA, 0xFA]).set 0 0x00 ++ encode [1, 2, 3, 4]))[15]?
      = some 1 ∧
    (returns u3_init ((encode [0xAA, 0xAA, 0xAF, 0x00]).set 1 0xAA ++ encode [1, 2, 3, 4]))[15]?
      = some 1 :=
  ⟨(recovery_after_corrupted_byte u3_init 0xAA 0xFF 0xAA 0xFA 1 2 3 4 0 0x00 rfl (by decide)
      (by decide) (by decide) (by decide)).1.mpr (Or.inr (by decide)),
    (recovery_after_corrupted_byte u3_init 0xAA 0xAA 0xAF 0x00 1 2 3 4 1 0xAA rfl (by decide)
      (by decide) (by decide) (by decide)).1.mpr (Or.inr (by decide))⟩

/-! ## Reset to the first header byte -/

/-- A call that returns 1 or -1 leaves the parser waiting for the first header
byte. -/
theorem nonzero_return_resets (s : ParserState) (b : Nat)
    (h : (u3_packet_parser_call s b).2 ≠ 0) :
    (u3_packet_parser_call s b).1.parse_state = STATE_WAIT_HEAD1 := by
  obtain ⟨c, st, di, pb, rx⟩ := s
  cases st with
  | STATE_WAIT_HEAD1 => rw [step_wait_head1] at h; split at h <;> simp at h
  | STATE_WAIT_HEAD2 => rw [step_wait_head2] at h; split at h <;> simp at h
  | STATE_RECEIVE_DATA => simp [u3_packet_parser_call] at h
  | STATE_WAIT_TAIL1 =>
    rw [step_wait_tail1] at h ⊢
    by_cases hb : b = 0xFA
    · simp [hb] at h
    · simp [hb]
  | STATE_WAIT_TAIL2 =>
    rw [step_wait_tail2]
    by_cases hb : b = 0xFF <;> by_cases hc : c < 10 <;> simp [hb, hc]

/-- A frame with a wrong trailer and no stray `AA`, received while waiting for
the first header byte, returns -1 once and leaves the parser waiting for the
first header byte. -/
theorem malformed_frame_run (s : ParserState) (f : List Nat)
    (hs : s.parse_state = STATE_WAIT_HEAD1) (hf : malformed_trailer_frame f)
    (hok : no_stray_head1 f) :
    (stateAfter s f).parse_state = STATE_WAIT_HEAD1 ∧ (returns s f).count (-1) = 1 := by
  obtain ⟨c, st, di, pb, rx⟩ := s
  simp only at hs
  subst hs
  obtain ⟨hlen, hhead, htail⟩ := hf
  obtain ⟨w0, w1, w2, w3, w4, w5, w6, w7, rfl⟩ := length_eight f hlen
  simp [no_stray_head1] at hhead htail hok
  obtain ⟨rfl, rfl⟩ := hhead
  by_cases h6 : w6 = 0xFA
  · have h7 : w7 ≠ 0xFF := by
      rcases htail with h | h
      · exact absurd h6 h
      · exact h
    subst h6
    simp [stateAfter, returns, step_wait_head1, step_wait_head2, step_receive_data,
      step_wait_tail1, step_wait_tail2, h7]
  · have h7 : w7 ≠ 0xAA := by
      rcases hok with h | h
      · exact absurd h h6
      · exact h
    simp [stateAfter, returns, step_wait_head1, step_wait_head2, step_receive_data,
      step_wait_tail1, h6, h7]

theorem malformed_frames_run (s : ParserState) (fs : List (List Nat))
    (hs : s.parse_state = STATE_WAIT_HEAD1)
    (hf : ∀ f ∈ fs, malformed_trailer_frame f ∧ no_stray_head1 f) :
    (stateAfter s (stream_of fs)).parse_state = STATE_WAIT_HEAD1 ∧
      (returns s (stream_of fs)).count (-1) = fs.length := by
  induction fs generalizing s with
  | nil => exact ⟨hs, rfl⟩
  | cons f fs ih =>
    obtain ⟨hm, hok⟩ := hf f (List.mem_cons_self _ _)
    obtain ⟨h1, h2⟩ := malformed_frame_run s f hs hm hok
    obtain ⟨h3, h4⟩ := ih _ h1 (fun g hg => hf g (List.mem_cons_of_mem _ hg))
    simp only [stream_of, stateAfter_append, returns_append, List.count_append, List.length_cons]
    exact ⟨h3, by omega⟩

/-- C11, as stated, fails in its second half: the frame `AA AF 00 00 00 00 00 AA`
has a valid header and a wrong trailer; the error is raised on its 7th byte, its
last byte `AA` is then read as a first header byte, so that after the frame the
parser waits for the second header byte and the valid frame that follows is not
completed. -/
theorem stray_head1_after_error :
    malformed_trailer_frame [0xAA, 0xAF, 0, 0, 0, 0, 0x00, 0xAA] ∧
    returns u3_init [0xAA, 0xAF, 0, 0, 0, 0, 0x00, 0xAA] = [0, 0, 0, 0, 0, 0, -1, 0] ∧
    (stateAfter u3_init [0xAA, 0xAF, 0, 0, 0, 0, 0x00, 0xAA]).parse_state = STATE_WAIT_HEAD2 ∧
    (returns u3_init
      ([0xAA, 0xAF, 0, 0, 0, 0, 0x00, 0xAA] ++ [0xAA, 0xAF, 1, 2, 3, 4, 0xFA, 0xFF])).count 1 = 0
    := by
  decide

/-- C11, amended: along every byte stream fed from the initial state, after
every call that returns 1 (complete) or -1 (error) the parser waits for the
first header byte. In particular, after any number of back-to-back frames with
a valid header and a wrong trailer, none of which ends in an `AA` that follows a
wrong first tail byte, the parser waits for the first header byte between the
frames, each frame has raised one error, and a valid frame that follows is
completed and stored. -/
theorem reset_on_complete_or_error (bs : List Nat) (k : Nat) (r : Int) (fs : List (List Nat))
    (p0 p1 p2 p3 : Nat) :
    ((returns u3_init bs)[k]? = some r → r = 1 ∨ r = -1 →
      (stateAfter u3_init (bs.take (k + 1))).parse_state = STATE_WAIT_HEAD1) ∧
    ((∀ f ∈ fs, malformed_trailer_frame f ∧ no_stray_head1 f) →
      (∀ n, (stateAfter u3_init (stream_of (fs.take n))).parse_state = STATE_WAIT_HEAD1) ∧
      (returns u3_init (stream_of fs)).count (-1) = fs.length ∧
      (returns u3_init (stream_of fs ++ [0xAA, 0xAF, p0, p1, p2, p3, 0xFA, 0xFF])).getLast?
        = some 1 ∧
      (stateAfter u3_init (stream_of fs ++ [0xAA, 0xAF, p0, p1, p2, p3, 0xFA, 0xFF])).my_msg_rx.getD
        (stateAfter u3_init (stream_of fs)).packet_count [] = [p0, p1, p2, p3]) := by
  constructor
  · intro h hr
    obtain ⟨b, -, hret, hst⟩ := returns_getElem u3_init bs k r h
    rw [hst]
    apply nonzero_return_resets
    rw [hret]
    rcases hr with rfl | rfl <;> decide
  · intro hf
    obtain ⟨hst, hcount⟩ := malformed_frames_run u3_init fs rfl hf
    obtain ⟨hwf, hc, -⟩ := trail_reachable (stream_of fs)
    have hret : returns (stateAfter u3_init (stream_of fs))
        [0xAA, 0xAF, p0, p1, p2, p3, 0xFA, 0xFF] = [0, 0, 0, 0, 0, 0, 0, 1] := by
      generalize stateAfter u3_init (stream_of fs) = t at hst
      obtain ⟨c, st, di, pb, rx⟩ := t
      simp only at hst
      subst hst
      exact (frame_run c di pb rx p0 p1 p2 p3).1
    have hlen : (stateAfter u3_init (stream_of fs)).packet_count <
        (stateAfter u3_init (stream_of fs)).my_msg_rx.length := by rw [hwf.2.1]; exact hc
    refine ⟨?_, hcount, ?_, ?_⟩
    · intro n
      exact (malformed_frames_run u3_init (fs.take n) rfl
        (fun f h => hf f (List.mem_of_mem_take h))).1
    · rw [returns_append, hret]; simp
    · rw [stateAfter_append, frame_stored _ p0 p1 p2 p3 hst hc hwf]
      exact getD_set_self _ _ _ _ hlen

/-- Witness of the amended C11: three frames with a wrong trailer, then the
frame of `01 02 03 04`. -/
theorem reset_on_complete_or_error_witness :
    (returns u3_init (stream_of [[0xAA, 0xAF, 9, 9, 9, 9, 0xFA, 0xFE],
      [0xAA, 0xAF, 8, 8, 8, 8, 0x00, 0xFF], [0xAA, 0xAF, 7, 7, 7, 7, 0xFA, 0xAA]])).count (-1)
      = 3 ∧
    (returns u3_init (stream_of [[0xAA, 0xAF, 9, 9, 9, 9, 0xFA, 0xFE],
      [0xAA, 0xAF, 8, 8, 8, 8, 0x00, 0xFF], [0xAA, 0xAF, 7, 7, 7, 7, 0xFA, 0xAA]] ++
      [0xAA, 0xAF, 1, 2, 3, 4, 0xFA, 0xFF])).getLast? = some 1 :=
  ⟨((reset_on_complete_or_error [] 0 0 [[0xAA, 0xAF, 9, 9, 9, 9, 0xFA, 0xFE],
      [0xAA, 0xAF, 8, 8, 8, 8, 0x00, 0xFF], [0xAA, 0xAF, 7, 7, 7, 7, 0xFA, 0xAA]] 1 2 3 4).2
      (by decide)).2.1,
    ((reset_on_complete_or_error [] 0 0 [[0xAA, 0xAF, 9, 9, 9, 9, 0xFA, 0xFE],
      [0xAA, 0xAF, 8, 8, 8, 8, 0x00, 0xFF], [0xAA, 0xAF, 7, 7, 7, 7, 0xFA, 0xAA]] 1 2 3 4).2
      (by decide)).2.2.1⟩

/-! ## Bounds on the indices -/

theorem bounds_init : Bounds u3_init := by decide

theorem bounds_step (s : ParserState) (b : Nat) (h : Bounds s) :
    Bounds (u3_packet_parser_call s b).1 := by
  obtain ⟨c, st, di, pb, rx⟩ := s
  obtain ⟨hc, hle, hrd, htl⟩ := h
  simp only at hc hle hrd htl
  cases st with
  | STATE_WAIT_HEAD1 =>
    rw [step_wait_head1]
    by_cases hb : b = 0xAA <;> simp [hb, Bounds, hc, hle]
  | STATE_WAIT_HEAD2 =>
    rw [step_wait_head2]
    by_cases hb : b = 0xAF <;> simp [hb, Bounds, hc, hle]
  | STATE_RECEIVE_DATA =>
    have h4 := hrd rfl
    rw [step_receive_data _ _ _ _ _ h4]
    by_cases h3 : di = 3
    · subst h3; simp [Bounds, hc]
    · simp [Bounds, hc, h3]; omega
  | STATE_WAIT_TAIL1 =>
    have h4 := htl (Or.inl rfl)
    rw [step_wait_tail1]
    by_cases hb : b = 0xFA <;> simp [hb, Bounds, hc, hle, h4]
  | STATE_WAIT_TAIL2 =>
    have hmod : (c + 1) % 10 < 10 := Nat.mod_lt _ (by decide)
    rw [step_wait_tail2]
    by_cases hb : b = 0xFF <;> simp [hb, Bounds, hc, hle, hmod]

theorem bounds_reachable (bs : List Nat) : Bounds (stateAfter u3_init bs) := by
  have key : ∀ (s : ParserState), Bounds s → Bounds (stateAfter s bs) := by
    induction bs with
    | nil => intro s h; exact h
    | cons b bs ih => intro s h; exact ih _ (bounds_step s b h)
  exact key _ bounds_init

/-- C12, as stated, fails: after a complete frame from the initial state the
parser has just returned to waiting for the first header byte, and the count of
data bytes is 4, not 0. -/
theorem data_index_not_cleared_on_reset :
    (returns u3_init [0xAA, 0xAF, 1, 2, 3, 4, 0xFA, 0xFF]).getLast? = some 1 ∧
    (stateAfter u3_init [0xAA, 0xAF, 1, 2, 3, 4, 0xFA, 0xFF]).parse_state = STATE_WAIT_HEAD1 ∧
    (stateAfter u3_init [0xAA, 0xAF, 1, 2, 3, 4, 0xFA, 0xFF]).data_index = 4 ∧
    (stateAfter u3_init [0xAA, 0xAF, 1, 2, 3, 4, 0xFA, 0xFF]).data_index ≠ 0 := by
  decide

/-- C12, amended: in every state reachable from the initial state, the count
of data bytes is 0 whenever the parser has just entered the reception of data
(valid second header byte), so that the in-flight buffer is empty when a payload
starts; a return to waiting for the first header byte does not clear it: the
count is 4 after a completion or a trailer mismatch and is unchanged after a
header mismatch. -/
theorem data_index_cleared_on_receive (bs : List Nat) (b : Nat) :
    ((stateAfter u3_init bs).parse_state = STATE_WAIT_HEAD2 → b = 0xAF →
      (u3_packet_parser_call (stateAfter u3_init bs) b).1.parse_state = STATE_RECEIVE_DATA ∧
      (u3_packet_parser_call (stateAfter u3_init bs) b).1.data_index = 0) ∧
    ((u3_packet_parser_call (stateAfter u3_init bs) b).2 ≠ 0 →
      (u3_packet_parser_call (stateAfter u3_init bs) b).1.parse_state = STATE_WAIT_HEAD1 ∧
      (u3_packet_parser_call (stateAfter u3_init bs) b).1.data_index = 4) ∧
    ((stateAfter u3_init bs).parse_state = STATE_WAIT_HEAD2 → b ≠ 0xAF →
      (u3_packet_parser_call (stateAfter u3_init bs) b).1.parse_state = STATE_WAIT_HEAD1 ∧
      (u3_packet_parser_call (stateAfter u3_init bs) b).1.data_index =
        (stateAfter u3_init bs).data_index) := by
  have hb := bounds_reachable bs
  generalize stateAfter u3_init bs = s at hb
  obtain ⟨c, st, di, pb, rx⟩ := s
  obtain ⟨hc, -, -, htl⟩ := hb
  simp only at hc htl
  refine ⟨?_, ?_, ?_⟩
  · rintro rfl rfl; simp [step_wait_head2]
  · intro h
    cases st with
    | STATE_WAIT_HEAD1 => rw [step_wait_head1] at h; split at h <;> simp at h
    | STATE_WAIT_HEAD2 => rw [step_wait_head2] at h; split at h <;> simp at h
    | STATE_RECEIVE_DATA => simp [u3_packet_parser_call] at h
    | STATE_WAIT_TAIL1 =>
      have h4 := htl (Or.inl rfl)
      rw [step_wait_tail1] at h ⊢
      by_cases hf : b = 0xFA
      · simp [hf] at h
      · simp [hf, h4]
    | STATE_WAIT_TAIL2 =>
      have h4 := htl (Or.inr rfl)
      rw [step_wait_tail2]
      by_cases hf : b = 0xFF <;> simp [hf, hc, h4]
  · rintro rfl hne; simp [step_wait_head2, hne]

/-- Witness of the amended C12: the trailer mismatch `00` after
`AA AF 01 02 03 04`. -/
theorem data_index_cleared_on_receive_witness :
    (u3_packet_parser_call (stateAfter u3_init [0xAA, 0xAF, 1, 2, 3, 4]) 0).1.parse_state
      = STATE_WAIT_HEAD1 ∧
    (u3_packet_parser_call (stateAfter u3_init [0xAA, 0xAF, 1, 2, 3, 4]) 0).1.data_index = 4 :=
  (data_index_cleared_on_receive [0xAA, 0xAF, 1, 2, 3, 4] 0).2.1 (by decide)

/-! ## The byte `AA` inside a frame -/

/-- C17: for every parser receiving data or waiting for a tail byte, a call
with the byte `AA` never moves it to waiting for the second header byte. While
data is received (fewer than 4 bytes held) `AA` is stored as payload and 0 is
returned; while a tail byte is awaited it is a trailer mismatch, which returns
-1 and resets the parser to waiting for the first header byte: the `AA` is
consumed, and an `AF` that follows is not taken for a second header byte. -/
theorem head1_byte_inside_frame (s : ParserState)
    (hst : s.parse_state = STATE_RECEIVE_DATA ∨ s.parse_state = STATE_WAIT_TAIL1 ∨
      s.parse_state = STATE_WAIT_TAIL2) :
    (u3_packet_parser_call s 0xAA).1.parse_state ≠ STATE_WAIT_HEAD2 ∧
    (s.parse_state = STATE_RECEIVE_DATA → s.data_index < 4 → s.packet_buffer.length = 8 →
      (u3_packet_parser_call s 0xAA).1.packet_buffer.getD (2 + s.data_index) 0 = 0xAA ∧
      (u3_packet_parser_call s 0xAA).1.data_index = s.data_index + 1 ∧
      (u3_packet_parser_call s 0xAA).2 = 0) ∧
    (s.parse_state = STATE_WAIT_TAIL1 ∨ s.parse_state = STATE_WAIT_TAIL2 →
      (u3_packet_parser_call s 0xAA).2 = -1 ∧
      (u3_packet_parser_call s 0xAA).1.parse_state = STATE_WAIT_HEAD1 ∧
      (u3_packet_parser_call (u3_packet_parser_call s 0xAA).1 0xAF).1.parse_state
        = STATE_WAIT_HEAD1) := by
  obtain ⟨c, st, di, pb, rx⟩ := s
  simp only at hst
  cases st with
  | STATE_WAIT_HEAD1 => simp at hst
  | STATE_WAIT_HEAD2 => simp at hst
  | STATE_RECEIVE_DATA =>
    refine ⟨?_, ?_, by simp⟩
    · by_cases h : di < 4
      · rw [step_receive_data _ _ _ _ _ h]
        by_cases h3 : di = 3 <;> simp [h3]
      · simp [u3_packet_parser_call, h]
        split <;> simp
    · intro _ h hpb
      simp only at h hpb
      rw [step_receive_data _ _ _ _ _ h]
      have hlt : 2 + di < pb.length := by omega
      exact ⟨getD_set_self _ _ _ _ hlt, rfl, rfl⟩
  | STATE_WAIT_TAIL1 => simp [step_wait_tail1, step_wait_head1]
  | STATE_WAIT_TAIL2 => simp [step_wait_tail2, step_wait_head1]

/-- Witness of C17: `AA` as the third data byte and `AA` in place of the first
tail byte. -/
theorem head1_byte_inside_frame_witness :
    (u3_packet_parser_call (stateAfter u3_init [0xAA, 0xAF, 1, 2]) 0xAA).1.parse_state
      ≠ STATE_WAIT_HEAD2 ∧
    (u3_packet_parser_call (stateAfter u3_init [0xAA, 0xAF, 1, 2, 3, 4]) 0xAA).2 = -1 :=
  ⟨(head1_byte_inside_frame (stateAfter u3_init [0xAA, 0xAF, 1, 2]) (by decide)).1,
    ((head1_byte_inside_frame (stateAfter u3_init [0xAA, 0xAF, 1, 2, 3, 4]) (by decide)).2.2
      (by decide)).1⟩

/-- C18: in every state reachable from the initial state by any byte stream,
the cursor `packet_count` is below 10 and `data_index` is at most 4, and below 4
while data is received. Hence the writes to `packet_buffer` and `my_msg_rx` are
inside the arrays, the guard `packet_count < 10` holds, and a call that returns
1 has written the four data bytes to the slot at the cursor and advanced the
cursor. -/
theorem index_bounds (bs : List Nat) (b : Nat) :
    (stateAfter u3_init bs).packet_count < 10 ∧
    (stateAfter u3_init bs).data_index ≤ 4 ∧
    ((stateAfter u3_init bs).parse_state = STATE_RECEIVE_DATA →
      (stateAfter u3_init bs).data_index < 4 ∧
      2 + (stateAfter u3_init bs).data_index < (stateAfter u3_init bs).packet_buffer.length) ∧
    (stateAfter u3_init bs).packet_buffer.length = 8 ∧
    (stateAfter u3_init bs).packet_count < (stateAfter u3_init bs).my_msg_rx.length ∧
    ((stateAfter u3_init bs).my_msg_rx.getD (stateAfter u3_init bs).packet_count []).length = 4 ∧
    ((u3_packet_parser_call (stateAfter u3_init bs) b).2 = 1 →
      (u3_packet_parser_call (stateAfter u3_init bs) b).1.my_msg_rx.getD
        (stateAfter u3_init bs).packet_count [] =
          [(stateAfter u3_init bs).packet_buffer.getD 2 0,
            (stateAfter u3_init bs).packet_buffer.getD 3 0,
            (stateAfter u3_init bs).packet_buffer.getD 4 0,
            (stateAfter u3_init bs).packet_buffer.getD 5 0] ∧
      (u3_packet_parser_call (stateAfter u3_init bs) b).1.packet_count =
        ((stateAfter u3_init bs).packet_count + 1) % 10) := by
  obtain ⟨hc, hle, hrd, -⟩ := bounds_reachable bs
  obtain ⟨hwf, -, -⟩ := trail_reachable bs
  have hslot := slot_length _ hwf _ hc
  generalize stateAfter u3_init bs = s at hc hle hrd hwf hslot
  obtain ⟨hpb, hlen, hall⟩ := hwf
  have hc' : s.packet_count < s.my_msg_rx.length := by rw [hlen]; exact hc
  refine ⟨hc, hle, fun h => ⟨hrd h, by have := hrd h; omega⟩, hpb, hc', hslot, ?_⟩
  intro hret
  obtain ⟨hst, hb⟩ := complete_only_in_tail2 s b hret
  obtain ⟨c, st, di, pb, rx⟩ := s
  simp only at hc hpb hc' hslot hst
  subst hst hb
  obtain ⟨w0, w1, w2, w3, w4, w5, w6, w7, rfl⟩ := length_eight pb hpb
  rw [step_wait_tail2, if_pos rfl, if_pos hc, store_packet_eq rx c _ hc' hslot]
  refine ⟨?_, rfl⟩
  show (rx.set c _).getD c [] = _
  rw [getD_set_self _ _ _ _ hc']
  simp

/-- Witness of C18: the call that completes the frame of `01 02 03 04`. -/
theorem index_bounds_witness :
    (u3_packet_parser_call (stateAfter u3_init [0xAA, 0xAF, 1, 2, 3, 4, 0xFA]) 0xFF).1.packet_count
      = ((stateAfter u3_init [0xAA, 0xAF, 1, 2, 3, 4, 0xFA]).packet_count + 1) % 10 :=
  ((index_bounds [0xAA, 0xAF, 1, 2, 3, 4, 0xFA] 0xFF).2.2.2.2.2.2 (by decide)).2

/-! ## Noise without the byte `AA` -/

theorem quiet_noise_run (s : ParserState) (noise : List Nat)
    (hs : s.parse_state = STATE_WAIT_HEAD1) (hn : 0xAA ∉ noise) :
    stateAfter s noise = s ∧ returns s noise = List.replicate noise.length 0 := by
  induction noise with
  | nil => exact ⟨rfl, rfl⟩
  | cons b bs ih =>
    have hb : b ≠ 0xAA := fun h => hn (h ▸ List.mem_cons_self _ _)
    have hrest : 0xAA ∉ bs := fun h => hn (List.mem_cons_of_mem _ h)
    have hstep : u3_packet_parser_call s b = (s, 0) := by
      obtain ⟨c, st, di, pb, rx⟩ := s
      simp only at hs
      subst hs
      simp [step_wait_head1, hb]
    obtain ⟨h1, h2⟩ := ih hrest
    simp only [stateAfter, returns, hstep, h1, h2, List.length_cons, List.replicate_succ]
    exact ⟨trivial, trivial⟩

/-- C19: for every noise sequence that contains no byte `AA` and every payload,
the noise followed by the valid frame, fed to a well-formed parser waiting for
the first header byte with its cursor on a slot, returns 0 on every noise byte,
never returns -1, and returns 1 exactly once, on the last byte of the frame,
the payload being written to the slot at the cursor. -/
theorem resync_after_quiet_noise (s : ParserState) (noise : List Nat) (p0 p1 p2 p3 : Nat)
    (hs : s.parse_state = STATE_WAIT_HEAD1) (hc : s.packet_count < 10) (hwf : WellFormed s)
    (hn : 0xAA ∉ noise) :
    returns s noise = List.replicate noise.length 0 ∧
    returns s (noise ++ [0xAA, 0xAF, p0, p1, p2, p3, 0xFA, 0xFF]) =
      List.replicate noise.length 0 ++ [0, 0, 0, 0, 0, 0, 0, 1] ∧
    (returns s (noise ++ [0xAA, 0xAF, p0, p1, p2, p3, 0xFA, 0xFF])).count (-1) = 0 ∧
    (returns s (noise ++ [0xAA, 0xAF, p0, p1, p2, p3, 0xFA, 0xFF])).count 1 = 1 ∧
    (returns s (noise ++ [0xAA, 0xAF, p0, p1, p2, p3, 0xFA, 0xFF])).getLast? = some 1 ∧
    (stateAfter s (noise ++ [0xAA, 0xAF, p0, p1, p2, p3, 0xFA, 0xFF])).my_msg_rx.getD
      s.packet_count [] = [p0, p1, p2, p3] := by
  obtain ⟨h1, h2⟩ := quiet_noise_run s noise hs hn
  have hret : returns s [0xAA, 0xAF, p0, p1, p2, p3, 0xFA, 0xFF] = [0, 0, 0, 0, 0, 0, 0, 1] := by
    obtain ⟨c, st, di, pb, rx⟩ := s
    simp only at hs
    subst hs
    exact (frame_run c di pb rx p0 p1 p2 p3).1
  have hlen : s.packet_count < s.my_msg_rx.length := by rw [hwf.2.1]; exact hc
  have hcount : ∀ (n : Nat) (v : Int), v ≠ 0 → (List.replicate n (0 : Int)).count v = 0 := by
    intro n v hv
    rw [List.count_replicate]
    simp [Ne.symm hv]
  rw [returns_append, stateAfter_append, h1, h2, hret, frame_stored s p0 p1 p2 p3 hs hc hwf]
  refine ⟨rfl, rfl, ?_, ?_, by simp, getD_set_self _ _ _ _ hlen⟩
  · rw [List.count_append, hcount _ _ (by decide)]; decide
  · rw [List.count_append, hcount _ _ (by decide)]; decide

/-- Witness of C19: the noise `00 AF FA FF 13` before the frame of
`01 02 03 04`. -/
theorem resync_after_quiet_noise_witness :
    returns u3_init [0x00, 0xAF, 0xFA, 0xFF, 0x13] =
      List.replicate [0x00, 0xAF, 0xFA, 0xFF, 0x13].length 0 ∧
    returns u3_init ([0x00, 0xAF, 0xFA, 0xFF, 0x13] ++ [0xAA, 0xAF, 1, 2, 3, 4, 0xFA, 0xFF]) =
      List.replicate [0x00, 0xAF, 0xFA, 0xFF, 0x13].length 0 ++ [0, 0, 0, 0, 0, 0, 0, 1] :=
  ⟨(resync_after_quiet_noise u3_init [0x00, 0xAF, 0xFA, 0xFF, 0x13] 1 2 3 4 rfl (by decide)
      (by decide) (by decide)).1,
    (resync_after_quiet_noise u3_init [0x00, 0xAF, 0xFA, 0xFF, 0x13] 1 2 3 4 rfl (by decide)
      (by decide) (by decide)).2.1⟩

/-! ## The encoder -/

/-- C13: for every 4-byte payload, the frame `send_u3_data` hands to the
transport is exactly `AA AF p0 p1 p2 p3 FA FF`, the payload bytes unchanged and
in order between the header `HEAD1 HEAD2` and the trailer `TAIL1 TAIL2`, and
the transmitted length is 8. -/
theorem encoder_layout (tx : List (List Nat)) (p0 p1 p2 p3 : Nat)
    (htx : tx.length = MAX_LENGTH) :
    (send_u3_data tx [p0, p1, p2, p3]).tmp_buf = [0xAA, 0xAF, p0, p1, p2, p3, 0xFA, 0xFF] ∧
    (send_u3_data tx [p0, p1, p2, p3]).tmp_buf = [HEAD1, HEAD2, p0, p1, p2, p3, TAIL1, TAIL2] ∧
    (send_u3_data tx [p0, p1, p2, p3]).tmp_buf.length = 8 ∧
    (send_u3_data tx [p0, p1, p2, p3]).size = 8 := by
  have htx' : 0 < tx.length := by rw [htx]; decide
  rw [send_u3_data_frame tx p0 p1 p2 p3 htx']
  exact ⟨rfl, rfl, rfl, rfl⟩

/-- Witness of C13: the payload `9A 99 99 3F` of the constant `1.2f`. -/
theorem encoder_layout_witness :
    (send_u3_data fw_init.my_msg_tx [0x9A, 0x99, 0x99, 0x3F]).tmp_buf =
      [0xAA, 0xAF, 0x9A, 0x99, 0x99, 0x3F, 0xFA, 0xFF] :=
  (encoder_layout fw_init.my_msg_tx 0x9A 0x99 0x99 0x3F (by decide)).1

/-- C14, as stated, fails: sending the payload `01 02 03 04` from the reset
state changes the global `my_msg_tx`, whose element 0 then holds the payload. -/
theorem send_changes_my_msg_tx :
    (call_send_u3_data fw_init [1, 2, 3, 4]).my_msg_tx ≠ fw_init.my_msg_tx ∧
    (call_send_u3_data fw_init [1, 2, 3, 4]).my_msg_tx.getD 0 [] = [1, 2, 3, 4] := by
  decide

/-- C14, amended: encoding a payload with `send_u3_data` is deterministic, and
apart from the frame handed to the transport its only effect on the program
state is that element 0 of `my_msg_tx` is overwritten with the payload: the
other elements of `my_msg_tx`, the receive store `my_msg_rx` and the parser
state, `pwm_ccr` and `cnt` are the same after the call as before. -/
theorem send_only_writes_tx_slot (g : Firmware) (p0 p1 p2 p3 : Nat)
    (htx : g.my_msg_tx.length = MAX_LENGTH) :
    (call_send_u3_data g [p0, p1, p2, p3]).my_msg_tx.getD 0 [] = [p0, p1, p2, p3] ∧
    (call_send_u3_data g [p0, p1, p2, p3]).my_msg_tx.length = g.my_msg_tx.length ∧
    (∀ j, j ≠ 0 → (call_send_u3_data g [p0, p1, p2, p3]).my_msg_tx[j]? = g.my_msg_tx[j]?) ∧
    (call_send_u3_data g [p0, p1, p2, p3]).rx = g.rx ∧
    (call_send_u3_data g [p0, p1, p2, p3]).pwm_ccr = g.pwm_ccr ∧
    (call_send_u3_data g [p0, p1, p2, p3]).cnt = g.cnt ∧
    (call_send_u3_data g [p0, p1, p2, p3]).compare = g.compare ∧
    (call_send_u3_data g [p0, p1, p2, p3]).transmitted =
      g.transmitted ++ [([0xAA, 0xAF, p0, p1, p2, p3, 0xFA, 0xFF], 8)] := by
  have htx' : 0 < g.my_msg_tx.length := by rw [htx]; decide
  have hframe := send_u3_data_frame g.my_msg_tx p0 p1 p2 p3 htx'
  refine ⟨?_, ?_, ?_, rfl, rfl, rfl, rfl, ?_⟩
  · exact getD_set_self _ _ _ _ htx'
  · simp [call_send_u3_data, send_u3_data]
  · intro j hj
    simp [call_send_u3_data, send_u3_data, List.getElem?_set_ne (Ne.symm hj)]
  · simp only [call_send_u3_data, hframe]
    rfl

/-- Witness of the amended C14 at the reset state. -/
theorem send_only_writes_tx_slot_witness :
    (call_send_u3_data fw_init [1, 2, 3, 4]).my_msg_tx.getD 0 [] = [1, 2, 3, 4] ∧
    (call_send_u3_data fw_init [1, 2, 3, 4]).rx = fw_init.rx :=
  ⟨(send_only_writes_tx_slot fw_init 1 2 3 4 (by decide)).1,
    (send_only_writes_tx_slot fw_init 1 2 3 4 (by decide)).2.2.2.1⟩

/-! ## The clamp of the PWM value -/

/-- C15: for every value `v`, in particular every 16-bit unsigned one,
`limit_ccr` replaces `v` by `min v 14399`: the result never exceeds 14399,
equals `v` whenever `v ≤ 14399`, and clamping twice is clamping once. -/
theorem limit_ccr_clamps (v : Nat) :
    limit_ccr v = min v 14399 ∧ limit_ccr v ≤ 14399 ∧ (v ≤ 14399 → limit_ccr v = v) ∧
    limit_ccr (limit_ccr v) = limit_ccr v := by
  have key : ∀ w, limit_ccr w = min w 14399 := by
    intro w
    unfold limit_ccr MAX_ARR
    split <;> omega
  refine ⟨key v, ?_, ?_, ?_⟩
  · rw [key]; omega
  · intro h; rw [key]; omega
  · rw [key, key]; omega

/-- Witness of C15: a value at most 14399 is kept. -/
theorem limit_ccr_clamps_witness : limit_ccr 7200 = 7200 :=
  (limit_ccr_clamps 7200).2.2.1 (by decide)

/-! ## The period of transmission -/

theorem tick_counter (g : Firmware) :
    (HAL_TIM_PeriodElapsedCallback g true).cnt = (if g.cnt ≥ 10 then 0 else (g.cnt + 1) % 256) ∧
    (HAL_TIM_PeriodElapsedCallback g true).transmitted.length =
      g.transmitted.length + (if g.cnt ≥ 10 then 1 else 0) := by
  by_cases h : g.cnt ≥ 10 <;> simp [HAL_TIM_PeriodElapsedCallback, call_send_u3_data, h]

/-- The counter and the number of frames sent after `k` periods: a frame goes
out on every 11th period. -/
theorem ticks_count (k : Nat) :
    (ticks fw_init k).cnt = k % 11 ∧ (ticks fw_init k).transmitted.length = k / 11 := by
  induction k with
  | zero => exact ⟨rfl, rfl⟩
  | succ k ih =>
    obtain ⟨h1, h2⟩ := ih
    obtain ⟨h3, h4⟩ := tick_counter (ticks fw_init k)
    have hlt : k % 11 < 11 := Nat.mod_lt _ (by decide)
    show (HAL_TIM_PeriodElapsedCallback (ticks fw_init k) true).cnt = _ ∧
      (HAL_TIM_PeriodElapsedCallback (ticks fw_init k) true).transmitted.length = _
    rw [h3, h4, h1, h2]
    by_cases h10 : k % 11 ≥ 10
    · simp only [h10, if_true]; omega
    · simp only [h10, if_false]; omega

/-- C16 against the code: starting from `cnt = 0`, the 10th period-elapsed
event of timer 3 sends nothing (no frame has gone out after ten periods and
`cnt` is 10); the first frame goes out on the 11th event and the second on the
22nd. -/
theorem tenth_tick_sends_nothing :
    sends_at fw_init 10 = false ∧ (ticks fw_init 10).transmitted = [] ∧
    (ticks fw_init 10).cnt = 10 ∧ sends_at fw_init 11 = true ∧ sends_at fw_init 20 = false ∧
    sends_at fw_init 22 = true := by
  decide

/-! ## The code refines the parser of the specification -/

theorem sim_init : Sim u3_init spec_init := by
  simp [Sim, u3_init, spec_init, spec_state_of, MAX_LENGTH]

/-- One call of the code and one `parse_byte` of the specification, started in
corresponding states, return the same value and end in corresponding states. -/
theorem sim_step (s : ParserState) (m : SpecParser) (b : Nat) (hsim : Sim s m)
    (hwf : WellFormed s) (hb : Bounds s) :
    (u3_packet_parser_call s b).2 = (spec_parse_byte m b).2.toInt ∧
    Sim (u3_packet_parser_call s b).1 (spec_parse_byte m b).1 := by
  have hslot := slot_length s hwf _ hb.1
  obtain ⟨c, st, di, pb, rx⟩ := s
  obtain ⟨mst, buf, store, cur⟩ := m
  obtain ⟨hpb, hlen, hall⟩ := hwf
  obtain ⟨hc, -, hrd, -⟩ := hb
  obtain ⟨h1, h2, h3, h4⟩ := hsim
  simp only at hpb hlen hall hc hrd h1 h2 h3 h4 hslot
  subst h1 h2 h3
  obtain ⟨w0, w1, w2, w3, w4, w5, w6, w7, rfl⟩ := length_eight pb hpb
  have hc' : cur < store.length := by rw [hlen]; exact hc
  cases st with
  | STATE_WAIT_HEAD1 =>
    simp only at h4
    subst h4
    rw [step_wait_head1]
    by_cases hb : b = 0xAA <;>
      simp [hb, spec_parse_byte, spec_state_of, spec_reset, Sim, Outcome.toInt]
  | STATE_WAIT_HEAD2 =>
    simp only at h4
    subst h4
    rw [step_wait_head2]
    by_cases hb : b = 0xAF <;>
      simp [hb, spec_parse_byte, spec_state_of, spec_reset, Sim, Outcome.toInt]
  | STATE_RECEIVE_DATA =>
    have hdi := hrd rfl
    simp only at h4
    subst h4
    rw [step_receive_data _ _ _ _ _ hdi]
    have hcases : di = 0 ∨ di = 1 ∨ di = 2 ∨ di = 3 := by omega
    rcases hcases with rfl | rfl | rfl | rfl <;>
      simp [spec_parse_byte, spec_state_of, Sim, Outcome.toInt]
  | STATE_WAIT_TAIL1 =>
    simp only at h4
    subst h4
    rw [step_wait_tail1]
    by_cases hb : b = 0xFA <;>
      simp [hb, spec_parse_byte, spec_state_of, spec_reset, Sim, Outcome.toInt]
  | STATE_WAIT_TAIL2 =>
    simp only at h4
    subst h4
    rw [step_wait_tail2]
    by_cases hb : b = 0xFF
    · subst hb
      rw [if_pos rfl, if_pos hc, store_packet_eq store cur _ hc' hslot]
      simp [spec_parse_byte, spec_state_of, spec_reset, spec_push, Sim, Outcome.toInt,
        Nat.mod_eq_of_lt hc]
    · simp [hb, spec_parse_byte, spec_state_of, spec_reset, Sim, Outcome.toInt]

theorem sim_run (bs : List Nat) (s : ParserState) (m : SpecParser) (pre : List Nat)
    (hsim : Sim s m) (ht : Trail s pre) (hb : Bounds s) :
    returns s bs = (spec_returns m bs).map Outcome.toInt ∧
    Sim (stateAfter s bs) (spec_stateAfter m bs) := by
  induction bs generalizing s m pre with
  | nil => exact ⟨rfl, hsim⟩
  | cons b bs ih =>
    obtain ⟨hret, hsim'⟩ := sim_step s m b hsim ht.1 hb
    obtain ⟨h1, h2⟩ := ih _ _ _ hsim' (trail_step s pre b ht) (bounds_step s b hb)
    simp only [returns, spec_returns, stateAfter, spec_stateAfter, List.map_cons, hret, h1]
    exact ⟨trivial, h2⟩

/-- C20: the parser of the code, which clears `data_index` only on entering the
reception of data and keeps stale bytes in `packet_buffer`, cannot be told from
the parser of the specification, which empties the in-flight buffer on every
return to `WaitHead1`: for every byte stream fed from the initial state both
return the same sequence of values, and after every byte of it (after the first
`k` bytes, for every `k`) both are in the same state with the same store
contents and the same cursor. -/
theorem code_refines_spec_model (bs : List Nat) (k : Nat) :
    returns u3_init bs = (spec_returns spec_init bs).map Outcome.toInt ∧
    spec_state_of (stateAfter u3_init (bs.take k)).parse_state =
      (spec_stateAfter spec_init (bs.take k)).state ∧
    (stateAfter u3_init (bs.take k)).my_msg_rx = (spec_stateAfter spec_init (bs.take k)).store ∧
    (stateAfter u3_init (bs.take k)).packet_count =
      (spec_stateAfter spec_init (bs.take k)).cursor := by
  obtain ⟨h1, -⟩ := sim_run bs u3_init spec_init [] sim_init trail_init bounds_init
  obtain ⟨-, h2, h3, h4, -⟩ :=
    sim_run (bs.take k) u3_init spec_init [] sim_init trail_init bounds_init
  exact ⟨h1, h2.symm, h3.symm, h4.symm⟩

end U3
